import Mathlib

/-!
Shallow Lean embedding of the AutoDoc documentation system: the structural
analyzers, the semantic indexer and the incremental orchestrator, translated
from the repository sources src/core/doc_system.py, src/core/js_analyzer.py,
src/utils.py and src/scripts/watch.py, together with theorems settling the
stated properties of the system.
-/

set_option maxHeartbeats 4000000

-- ## Generic string helpers mirroring the Python primitives used by the code

/-- Python regex class backslash-s over ASCII text: space, tab, newline,
carriage return, vertical tab, form feed. -/
def pyIsSpace (c : Char) : Bool :=
  c == ' ' || c == '\t' || c == '\n' || c == '\r' ||
  c == Char.ofNat 11 || c == Char.ofNat 12

/-- Python regex class backslash-w over ASCII text: letters, digits,
underscore. -/
def pyIsWord (c : Char) : Bool :=
  (97 ≤ c.toNat && c.toNat ≤ 122) || (65 ≤ c.toNat && c.toNat ≤ 90) ||
  (48 ≤ c.toNat && c.toNat ≤ 57) || c == '_'

/-- Uppercase ASCII letter, the regex class A to Z. -/
def isUpperAZ (c : Char) : Bool :=
  65 ≤ c.toNat && c.toNat ≤ 90

/-- Python substring membership test, needle in hay, over char lists. -/
def containsSub (needle : List Char) : List Char → Bool
  | [] => needle.isEmpty
  | c :: t => needle.isPrefixOf (c :: t) || containsSub needle t

/-- Python substring membership test over strings: strContains hay needle
mirrors needle in hay. -/
def strContains (hay needle : String) : Bool :=
  containsSub needle.data hay.data

/-- The counting loop of Python str.count, structurally recursive on a fuel
bound so that concrete counts evaluate in the kernel; one unit of fuel per
consumed character suffices. -/
def countSubFuel : Nat → List Char → List Char → Nat
  | 0, _, _ => 0
  | _ + 1, [], h => h.length + 1
  | _ + 1, _ :: _, [] => 0
  | f + 1, n :: ns, h :: hs =>
    if (n :: ns).isPrefixOf (h :: hs) then
      1 + countSubFuel f (n :: ns) ((h :: hs).drop (n :: ns).length)
    else
      countSubFuel f (n :: ns) hs

/-- Python str.count: number of non-overlapping occurrences of the needle,
scanning left to right. An empty needle counts length plus one, as in
Python. -/
def countSub (needle : List Char) (hay : List Char) : Nat :=
  countSubFuel (hay.length + 1) needle hay

/-- Python str.count over strings: strCount hay needle mirrors
hay.count(needle). -/
def strCount (hay needle : String) : Nat :=
  countSub needle.data hay.data

/-- The matching loop of fnmatch-style globbing, structurally recursive on
a fuel bound so that concrete matches evaluate in the kernel; every step
shortens the pattern or the text, so their combined length suffices. -/
def globMatchFuel : Nat → List Char → List Char → Bool
  | 0, _, _ => false
  | _ + 1, [], [] => true
  | f + 1, '*' :: ps, [] => globMatchFuel f ps []
  | _ + 1, _ :: _, [] => false
  | _ + 1, [], _ :: _ => false
  | f + 1, '*' :: ps, c :: cs =>
    globMatchFuel f ps (c :: cs) || globMatchFuel f ('*' :: ps) cs
  | f + 1, '?' :: ps, _ :: cs => globMatchFuel f ps cs
  | f + 1, p :: ps, c :: cs => (p == c) && globMatchFuel f ps cs

/-- fnmatch-style glob matching as used by utils.should_ignore_path. The
deny-list patterns contain only literal characters and the star wildcard;
the question mark is also handled, and no character classes appear in the
patterns. -/
def globMatch (pat hay : List Char) : Bool :=
  globMatchFuel (pat.length + hay.length + 1) pat hay

/-- Python str.strip with no argument: remove leading and trailing
whitespace. -/
def pyStrip (s : String) : String :=
  ⟨((s.data.dropWhile pyIsSpace).reverse.dropWhile pyIsSpace).reverse⟩

/-- Python str.strip with an explicit character set: remove leading and
trailing characters belonging to the set. -/
def pyStripChars (cs : List Char) (s : String) : String :=
  ⟨((s.data.dropWhile (cs.contains ·)).reverse.dropWhile (cs.contains ·)).reverse⟩

/-- Python str.lower over ASCII text, by character map. -/
def strToLower (s : String) : String :=
  ⟨s.data.map Char.toLower⟩

/-- Python str.upper over ASCII text, by character map. -/
def strToUpper (s : String) : String :=
  ⟨s.data.map Char.toUpper⟩

/-- Python str.startswith, by prefix test on the character list. -/
def strStartsWith (s pre : String) : Bool :=
  pre.data.isPrefixOf s.data

/-- Python str.endswith, by suffix test on the character list. -/
def strEndsWith (s suf : String) : Bool :=
  suf.data.isSuffixOf s.data

/-- The splitting loop of str.split with a one-character separator. -/
def splitOnChar (sep : Char) : List Char → List (List Char)
  | [] => [[]]
  | c :: rest =>
    if c == sep then [] :: splitOnChar sep rest
    else
      match splitOnChar sep rest with
      | g :: gs => (c :: g) :: gs
      | [] => [[c]]

/-- Python str.split with an explicit separator. Every separator the
embedded code passes is a single character (slash, newline or comma), so
only that case is implemented; other separators return the string whole. -/
def strSplitOn (s sep : String) : List String :=
  match sep.data with
  | [c] => (splitOnChar c s.data).map (fun cs => ⟨cs⟩)
  | _ => [s]

-- ## pathlib behaviour used by the orchestrator

/-- Non-root components of a path string: pathlib drops empty components and
single-dot components. -/
def pathComps (s : String) : List String :=
  (strSplitOn s "/").filter (fun p => p != "" && p != ".")

/-- pathlib Path.parts: the root marker when the path is absolute, followed
by the remaining components. -/
def pathParts (s : String) : List String :=
  if strStartsWith s "/" then "/" :: pathComps s else pathComps s

/-- pathlib Path.name: the final non-root component. -/
def pathName (s : String) : String :=
  (pathComps s).getLastD ""

/-- pathlib Path.suffix: the extension of the final component; empty when
the last dot is leading, trailing or absent. -/
def pathSuffix (s : String) : String :=
  let name := (pathName s).data
  match name.reverse.findIdx? (· == '.') with
  | none => ""
  | some j =>
    let i := name.length - 1 - j
    if 0 < i ∧ i < name.length - 1 then ⟨name.drop i⟩ else ""

/-- pathlib Path.stem: the final component without its suffix. -/
def pathStem (s : String) : String :=
  let name := (pathName s).data
  match name.reverse.findIdx? (· == '.') with
  | none => ⟨name⟩
  | some j =>
    let i := name.length - 1 - j
    if 0 < i ∧ i < name.length - 1 then ⟨name.take i⟩ else ⟨name⟩

/-- str applied to a pathlib Path: components joined by slashes, with the
root marker kept and the empty path rendered as a dot. -/
def pathStr (s : String) : String :=
  let comps := pathComps s
  if strStartsWith s "/" then "/" ++ String.intercalate "/" comps
  else if comps.isEmpty then "." else String.intercalate "/" comps

-- ## src/utils.py: the global deny list and its matcher

/-- The deny list from utils.get_comprehensive_ignore_patterns, transcribed
entry for entry. The Python source builds a set; a list is used here and
order and duplicates are irrelevant because matching is an existential
scan. -/
def get_comprehensive_ignore_patterns : List String := [
  ".env", ".env.*", "*.env", "env", ".envrc", "secrets", ".secrets",
  "*.key", "*.pem", "*.crt", "*.cer", "*.p12", "*.pfx",
  "credentials", "credentials.json", "token.json",
  "__pycache__", "*.pyc", "*.pyo", "*.pyd", ".Python",
  "pip-log.txt", "pip-delete-this-directory.txt",
  "*.so", "*.dylib", "*.dll",
  "venv", ".venv", "env", "ENV", "env.bak", "venv.bak",
  "virtualenv", "pyenv", ".python-version", "Pipenv",
  "conda-env", "miniconda", "anaconda",
  "*_venv", "venv_*", ".virtualenv", "virtualenvs",
  "node_modules", ".npm", ".yarn", ".pnp.js", ".pnp",
  "npm-debug.log*", "yarn-debug.log*", "yarn-error.log*",
  ".next", ".nuxt", ".cache", ".parcel-cache",
  "dist", "build", "out", ".webpack",
  ".pytest_cache", ".coverage", "htmlcov", ".tox", ".hypothesis",
  "coverage", "*.cover", ".nyc_output", "test-results",
  ".vscode", ".idea", "*.swp", "*.swo", "*~", ".DS_Store",
  "*.sublime-*", ".project", ".classpath", "*.iml",
  ".settings", "nbproject", ".netbeans", ".eclipse",
  "build", "dist", "*.egg-info", "*.egg", "wheels",
  "target", "bin", "obj", "*.class", "*.jar",
  "_build", ".gradle", ".mvn",
  "docs/_build", "site", "_site", "gh-pages",
  ".git", ".svn", ".hg", ".bzr", "_darcs", ".fossil",
  "*.db", "*.sqlite", "*.sqlite3", "*.mongodb",
  "database", "databases", "db_data", "postgres_data",
  "*.rdb", "dump.rdb",
  "*.log", "logs", "log", "*.tmp", "tmp", "temp",
  "*.bak", "*.backup", "*.old", "*.orig",
  "*.pid", "*.seed", "*.pid.lock",
  "autodoc_docs", "autodoc_vector_db", "autodoc_venv",
  "autodoc", ".autodoc",
  ".cache", "cache", "__pycache__", ".mypy_cache",
  ".ruff_cache", ".hypothesis", ".nox", ".pants.d",
  "Thumbs.db", "desktop.ini", "$RECYCLE.BIN",
  "*.lnk", "System Volume Information",
  "bower_components", "jspm_packages", "vendor",
  "*_secret*", "*_private*", "*.secret", "*.private",
  "id_rsa*", "id_dsa*", "id_ecdsa*", "id_ed25519*",
  "*.ppk", "known_hosts", "authorized_keys"]

/-- utils.should_ignore_path: a path component is ignored when some pattern
matches it directly, by glob when the pattern has a star, or as a prefix of
the component; every check is done both case-sensitively and on lowercased
text. -/
def should_ignore_path (path : String) (ignorePats : List String) : Bool :=
  let pl := strToLower path
  ignorePats.any (fun pat =>
    (path == pat || pl == strToLower pat)
    || (pat.data.contains '*'
        && (globMatch pat.data path.data || globMatch (strToLower pat).data pl.data))
    || (strStartsWith path pat || strStartsWith pl (strToLower pat)))

-- ## Python AST fragment used by CodeAnalyzer (the ast module is external;
-- analysis walks a parsed tree supplied by it)

mutual

inductive PyExpr where
  | pyName (id : String)
  | pyAttr (value : PyExpr) (attrName : String)
  | pyCall (func : PyExpr) (args : List PyExpr)
  | pyBoolOp (values : List PyExpr)
  | pyBinOp (left : PyExpr) (right : PyExpr)
  | pyStrConst (s : String)
  | pyConst (reprStr : String)
deriving Repr

inductive PyStmt where
  | pyExprStmt (e : PyExpr)
  | pyReturn (value : Option PyExpr)
  | pyAssign (targets : List PyExpr) (value : PyExpr)
  | pyAnnAssign (target : PyExpr) (ann : PyExpr)
  | pyIf (test : PyExpr) (body orelse : List PyStmt)
  | pyWhile (test : PyExpr) (body orelse : List PyStmt)
  | pyFor (target iter : PyExpr) (body orelse : List PyStmt)
  | pyTry (body : List PyStmt) (handlers : List PyHandler)
      (orelse finalbody : List PyStmt)
  | pyFunctionDef (isAsync : Bool) (fname : String) (argNames : List String)
      (body : List PyStmt) (decorators : List PyExpr) (lineno : Nat)
  | pyClassDef (cname : String) (bases : List PyExpr) (body : List PyStmt)
      (decorators : List PyExpr) (lineno : Nat)
  | pyImport (names : List String)
  | pyImportFrom (module : Option String) (names : List String)
deriving Repr

inductive PyHandler where
  | mk (body : List PyStmt)
deriving Repr

end

/-- A parsed Python module. -/
structure PyModule where
  body : List PyStmt
deriving Repr

/-- Class-specific element metadata stored by the analyzers: Python base
classes, the JavaScript extends clause, or React component props. -/
inductive ElemMeta where
  | basesMeta (bases : List String)
  | extendsMeta (e : Option String)
  | propsMeta (props : List String)
deriving Repr, DecidableEq

/-- doc_system.CodeElement. -/
structure CodeElement where
  name : String
  type : String
  file_path : String
  line_number : Nat
  docstring : Option String
  complexity_score : Int
  dependencies : List String
  decorators : List String
  signature : Option String := none
  metadata : Option ElemMeta := none
deriving Repr, DecidableEq

/-- HTTP method field of a route record: FastAPI routes store one string,
Flask routes store a list. -/
inductive RouteMethod where
  | single (m : String)
  | multiple (ms : List String)
deriving Repr, DecidableEq

/-- An api_routes entry of a FileAnalysis. -/
structure RouteRecord where
  method : RouteMethod
  path : String
  handler : String
  line_number : Nat
  docstring : Option String
deriving Repr, DecidableEq

/-- One field of a detected database model. -/
structure ModelField where
  name : String
  ftype : String
deriving Repr, DecidableEq

/-- A database_models entry of a FileAnalysis. -/
structure ModelRecord where
  name : String
  mtype : String
  fields : List ModelField
  line_number : Nat
deriving Repr, DecidableEq

/-- doc_system.FileAnalysis. -/
structure FileAnalysis where
  file_path : String
  purpose : String
  elements : List CodeElement
  imports : List String
  api_routes : List RouteRecord
  database_models : List ModelRecord
  content_hash : String
  last_analyzed : String
  breaking_changes : List String
  architecture_decisions : List String
deriving Repr, DecidableEq

/-- The single-quote character, written by code point to keep string
literals plain. -/
def squoteChar : Char := Char.ofNat 39

/-- The double-quote character. -/
def dquoteChar : Char := Char.ofNat 34

/-- String consisting of one single quote. -/
def squoteStr : String := ⟨[squoteChar]⟩

mutual

/-- CodeAnalyzer._node_to_string: render an expression the way the analyzer
does, with boolean and binary operators rendered as unknown and string
constants rendered in repr quotes. -/
def node_to_string : PyExpr → String
  | .pyName id => id
  | .pyAttr v a => node_to_string v ++ "." ++ a
  | .pyCall f args => node_to_string f ++ "(" ++ nodeListToString args ++ ")"
  | .pyStrConst s => squoteStr ++ s ++ squoteStr
  | .pyConst r => r
  | .pyBoolOp _ => "unknown"
  | .pyBinOp _ _ => "unknown"

/-- Comma join of rendered call arguments. -/
def nodeListToString : List PyExpr → String
  | [] => ""
  | [e] => node_to_string e
  | e :: rest => node_to_string e ++ ", " ++ nodeListToString rest

end

/-- CodeAnalyzer._decorator_to_string. -/
def decorator_to_string : PyExpr → String
  | .pyName id => "@" ++ id
  | .pyAttr v a => "@" ++ node_to_string (.pyAttr v a)
  | .pyCall f args => "@" ++ node_to_string (.pyCall f args)
  | _ => "@unknown"

/-- ast.get_docstring on a definition body: the value of a leading string
constant expression statement. -/
def get_docstring : List PyStmt → Option String
  | .pyExprStmt (.pyStrConst s) :: _ => some s
  | _ => none

mutual

/-- Branch contribution of an expression under ast.walk: a boolean operator
chain contributes its operand count minus one, everything else recurses. -/
def exprBranch : PyExpr → Int
  | .pyName _ => 0
  | .pyAttr v _ => exprBranch v
  | .pyCall f args => exprBranch f + exprListBranch args
  | .pyBoolOp values => ((values.length : Int) - 1) + exprListBranch values
  | .pyBinOp l r => exprBranch l + exprBranch r
  | .pyStrConst _ => 0
  | .pyConst _ => 0

/-- Branch contribution of an expression list. -/
def exprListBranch : List PyExpr → Int
  | [] => 0
  | e :: t => exprBranch e + exprListBranch t

/-- Branch contribution of a statement under ast.walk: if, while, for and
each except handler contribute one, and all children are walked. -/
def stmtBranch : PyStmt → Int
  | .pyExprStmt e => exprBranch e
  | .pyReturn none => 0
  | .pyReturn (some e) => exprBranch e
  | .pyAssign ts v => exprListBranch ts + exprBranch v
  | .pyAnnAssign t a => exprBranch t + exprBranch a
  | .pyIf test b o => 1 + exprBranch test + stmtListBranch b + stmtListBranch o
  | .pyWhile test b o => 1 + exprBranch test + stmtListBranch b + stmtListBranch o
  | .pyFor tg it b o =>
    1 + exprBranch tg + exprBranch it + stmtListBranch b + stmtListBranch o
  | .pyTry b hs o f =>
    stmtListBranch b + handlerListBranch hs + stmtListBranch o + stmtListBranch f
  | .pyFunctionDef _ _ _ body decs _ => stmtListBranch body + exprListBranch decs
  | .pyClassDef _ bases body decs _ =>
    exprListBranch bases + stmtListBranch body + exprListBranch decs
  | .pyImport _ => 0
  | .pyImportFrom _ _ => 0

/-- Branch contribution of a statement list. -/
def stmtListBranch : List PyStmt → Int
  | [] => 0
  | s :: t => stmtBranch s + stmtListBranch t

/-- Branch contribution of one except handler: the handler node itself plus
its walked body. -/
def handlerBranch : PyHandler → Int
  | .mk body => 1 + stmtListBranch body

/-- Branch contribution of a handler list. -/
def handlerListBranch : List PyHandler → Int
  | [] => 0
  | h :: t => handlerBranch h + handlerListBranch t

end

/-- CodeAnalyzer._calculate_complexity: one plus the branch contributions of
every node reachable from the definition by ast.walk. -/
def calculate_complexity (s : PyStmt) : Int :=
  1 + stmtBranch s

mutual

/-- Call targets reachable from an expression under ast.walk: a call to a
bare name contributes the name, a call to an attribute contributes the
rendered attribute chain. -/
def exprDeps : PyExpr → List String
  | .pyName _ => []
  | .pyAttr v _ => exprDeps v
  | .pyCall f args =>
    (match f with
     | .pyName id => [id]
     | .pyAttr v a => [node_to_string (.pyAttr v a)]
     | _ => []) ++ exprDeps f ++ exprListDeps args
  | .pyBoolOp vs => exprListDeps vs
  | .pyBinOp l r => exprDeps l ++ exprDeps r
  | .pyStrConst _ => []
  | .pyConst _ => []

/-- Call targets of an expression list. -/
def exprListDeps : List PyExpr → List String
  | [] => []
  | e :: t => exprDeps e ++ exprListDeps t

/-- Call targets reachable from a statement under ast.walk. -/
def stmtDeps : PyStmt → List String
  | .pyExprStmt e => exprDeps e
  | .pyReturn none => []
  | .pyReturn (some e) => exprDeps e
  | .pyAssign ts v => exprListDeps ts ++ exprDeps v
  | .pyAnnAssign t a => exprDeps t ++ exprDeps a
  | .pyIf test b o => exprDeps test ++ stmtListDeps b ++ stmtListDeps o
  | .pyWhile test b o => exprDeps test ++ stmtListDeps b ++ stmtListDeps o
  | .pyFor tg it b o => exprDeps tg ++ exprDeps it ++ stmtListDeps b ++ stmtListDeps o
  | .pyTry b hs o f =>
    stmtListDeps b ++ handlerListDeps hs ++ stmtListDeps o ++ stmtListDeps f
  | .pyFunctionDef _ _ _ body decs _ => stmtListDeps body ++ exprListDeps decs
  | .pyClassDef _ bases body decs _ =>
    exprListDeps bases ++ stmtListDeps body ++ exprListDeps decs
  | .pyImport _ => []
  | .pyImportFrom _ _ => []

/-- Call targets of a statement list. -/
def stmtListDeps : List PyStmt → List String
  | [] => []
  | s :: t => stmtDeps s ++ stmtListDeps t

/-- Call targets of a handler list. -/
def handlerListDeps : List PyHandler → List String
  | [] => []
  | .mk body :: t => stmtListDeps body ++ handlerListDeps t

end

/-- CodeAnalyzer._extract_dependencies: the set of call targets reachable
from the node. The Python code materialises a set whose iteration order is
unspecified; it is modelled as first-occurrence deduplication, and no
property below depends on the order. -/
def extract_dependencies (s : PyStmt) : List String :=
  (stmtDeps s).eraseDups

/-- CodeAnalyzer._analyze_function: build the element for one function
definition node. -/
def analyze_function (isAsync : Bool) (fname : String) (argNames : List String)
    (body : List PyStmt) (decorators : List PyExpr) (lineno : Nat)
    (file_path : String) : CodeElement :=
  { name := fname
    type := "function"
    file_path := file_path
    line_number := lineno
    docstring := get_docstring body
    complexity_score :=
      calculate_complexity (.pyFunctionDef isAsync fname argNames body decorators lineno)
    dependencies :=
      extract_dependencies (.pyFunctionDef isAsync fname argNames body decorators lineno)
    decorators := decorators.map decorator_to_string
    signature := some (fname ++ "(" ++ String.intercalate ", " argNames ++ ")") }

/-- CodeAnalyzer._analyze_class: build the element for one class definition
node. -/
def analyze_class (cname : String) (bases : List PyExpr) (body : List PyStmt)
    (decorators : List PyExpr) (lineno : Nat) (file_path : String) : CodeElement :=
  { name := cname
    type := "class"
    file_path := file_path
    line_number := lineno
    docstring := get_docstring body
    complexity_score :=
      calculate_complexity (.pyClassDef cname bases body decorators lineno)
    dependencies :=
      extract_dependencies (.pyClassDef cname bases body decorators lineno)
    decorators := decorators.map decorator_to_string
    metadata := some (.basesMeta (bases.map node_to_string)) }

mutual

/-- Elements contributed by one statement: ast.walk visits every nested
definition. The Python walk is breadth-first; the collection here is
depth-first, which yields the same elements, and no property below depends
on the order. -/
def stmtElements (file_path : String) : PyStmt → List CodeElement
  | .pyFunctionDef a n args body decs ln =>
    analyze_function a n args body decs ln file_path :: stmtListElements file_path body
  | .pyClassDef n bases body decs ln =>
    analyze_class n bases body decs ln file_path :: stmtListElements file_path body
  | .pyIf _ b o => stmtListElements file_path b ++ stmtListElements file_path o
  | .pyWhile _ b o => stmtListElements file_path b ++ stmtListElements file_path o
  | .pyFor _ _ b o => stmtListElements file_path b ++ stmtListElements file_path o
  | .pyTry b hs o f =>
    stmtListElements file_path b ++ handlerListElements file_path hs ++
    stmtListElements file_path o ++ stmtListElements file_path f
  | _ => []

/-- Elements contributed by a statement list. -/
def stmtListElements (file_path : String) : List PyStmt → List CodeElement
  | [] => []
  | s :: t => stmtElements file_path s ++ stmtListElements file_path t

/-- Elements contributed by a handler list. -/
def handlerListElements (file_path : String) : List PyHandler → List CodeElement
  | [] => []
  | .mk body :: t => stmtListElements file_path body ++ handlerListElements file_path t

end

/-- CodeAnalyzer._extract_elements: every function and class definition node
reachable by ast.walk, analyzed in place. -/
def extract_elements (tree : PyModule) (file_path : String) : List CodeElement :=
  stmtListElements file_path tree.body

mutual

/-- Imports contributed by one statement under ast.walk. -/
def stmtImports : PyStmt → List String
  | .pyImport names => names
  | .pyImportFrom m names => names.map (fun n => m.getD "" ++ "." ++ n)
  | .pyIf _ b o => stmtListImports b ++ stmtListImports o
  | .pyWhile _ b o => stmtListImports b ++ stmtListImports o
  | .pyFor _ _ b o => stmtListImports b ++ stmtListImports o
  | .pyTry b hs o f =>
    stmtListImports b ++ handlerListImports hs ++ stmtListImports o ++ stmtListImports f
  | .pyFunctionDef _ _ _ body _ _ => stmtListImports body
  | .pyClassDef _ _ body _ _ => stmtListImports body
  | _ => []

/-- Imports contributed by a statement list. -/
def stmtListImports : List PyStmt → List String
  | [] => []
  | s :: t => stmtImports s ++ stmtListImports t

/-- Imports contributed by a handler list. -/
def handlerListImports : List PyHandler → List String
  | [] => []
  | .mk body :: t => stmtListImports body ++ handlerListImports t

end

/-- CodeAnalyzer._extract_imports. -/
def extract_imports (tree : PyModule) : List String :=
  stmtListImports tree.body

-- ## Route and model detection (CodeAnalyzer)

/-- Match one of the FastAPI verb alternatives at the head of the text,
trying them in the order of the regex alternation. -/
def matchVerb (cs : List Char) : Option (String × List Char) :=
  if "get".data.isPrefixOf cs then some ("get", cs.drop 3)
  else if "post".data.isPrefixOf cs then some ("post", cs.drop 4)
  else if "put".data.isPrefixOf cs then some ("put", cs.drop 3)
  else if "delete".data.isPrefixOf cs then some ("delete", cs.drop 6)
  else if "patch".data.isPrefixOf cs then some ("patch", cs.drop 5)
  else none

/-- Match a quoted path at the head of the text: one quote of either kind,
one or more characters that are not quotes, then a closing quote of either
kind, as in the route regexes. -/
def matchQuotedPath (cs : List Char) : Option String :=
  match cs with
  | q :: r =>
    if q == dquoteChar || q == squoteChar then
      let inner := r.takeWhile (fun c => c != dquoteChar && c != squoteChar)
      if inner.length > 0 then
        match r.drop inner.length with
        | q2 :: _ => if q2 == dquoteChar || q2 == squoteChar then some ⟨inner⟩ else none
        | [] => none
      else none
    else none
  | [] => none

/-- The FastAPI route regex of _parse_fastapi_route, matched at the head of
the text: an at sign, app or router, a dot, an HTTP verb, an opening
parenthesis and a quoted path. -/
def fastapiAt (cs : List Char) : Option (String × String) :=
  let rest1 : Option (List Char) :=
    if "@app.".data.isPrefixOf cs then some (cs.drop 5)
    else if "@router.".data.isPrefixOf cs then some (cs.drop 8)
    else none
  match rest1 with
  | none => none
  | some r1 =>
    match matchVerb r1 with
    | none => none
    | some (verb, r2) =>
      match r2 with
      | '(' :: r3 =>
        match matchQuotedPath r3 with
        | some p => some (verb, p)
        | none => none
      | _ => none

/-- re.search for the FastAPI route regex: try every start position. -/
def searchFastapi : List Char → Option (String × String)
  | [] => none
  | c :: t =>
    match fastapiAt (c :: t) with
    | some r => some r
    | none => searchFastapi t

/-- The Flask route regex of _parse_flask_route, matched at the head of the
text. -/
def flaskAt (cs : List Char) : Option String :=
  let rest1 : Option (List Char) :=
    if "@app.route(".data.isPrefixOf cs then some (cs.drop 11)
    else if "@blueprint.route(".data.isPrefixOf cs then some (cs.drop 17)
    else none
  match rest1 with
  | none => none
  | some r1 => matchQuotedPath r1

/-- re.search for the Flask route regex. -/
def searchFlask : List Char → Option String
  | [] => none
  | c :: t =>
    match flaskAt (c :: t) with
    | some r => some r
    | none => searchFlask t

/-- The methods list regex of _parse_flask_route, matched at the head of the
text: the literal methods equals open bracket, then one or more characters
that are not a closing bracket, then the closing bracket. -/
def methodsAt (cs : List Char) : Option String :=
  if "methods=[".data.isPrefixOf cs then
    let r := cs.drop 9
    let inner := r.takeWhile (· != ']')
    if inner.length > 0 then
      match r.drop inner.length with
      | _ :: _ => some ⟨inner⟩
      | [] => none
    else none
  else none

/-- re.search for the methods list regex. -/
def searchMethods : List Char → Option String
  | [] => none
  | c :: t =>
    match methodsAt (c :: t) with
    | some r => some r
    | none => searchMethods t

/-- Split the captured methods group on commas and strip whitespace and
quotes from each entry. -/
def parseMethods (s : String) : List String :=
  (strSplitOn s ",").map (fun m => pyStripChars [dquoteChar, squoteChar] (pyStrip m))

/-- CodeAnalyzer._parse_fastapi_route. -/
def parse_fastapi_route (decStr : String) (fname : String) (lineno : Nat)
    (doc : Option String) : Option RouteRecord :=
  match searchFastapi decStr.data with
  | some (verb, p) =>
    some { method := .single (strToUpper verb), path := p, handler := fname,
           line_number := lineno, docstring := doc }
  | none => none

/-- CodeAnalyzer._parse_flask_route. -/
def parse_flask_route (decStr : String) (fname : String) (lineno : Nat)
    (doc : Option String) : Option RouteRecord :=
  match searchFlask decStr.data with
  | some p =>
    let methods :=
      match searchMethods decStr.data with
      | some g => parseMethods g
      | none => ["GET"]
    some { method := .multiple methods, path := p, handler := fname,
           line_number := lineno, docstring := doc }
  | none => none

/-- The decorator dispatch of _detect_api_routes: FastAPI markers are
checked first, so an at-app-dot-route decorator reaches the FastAPI parser
and never the Flask one. -/
def route_for_decorator (decStr : String) (fname : String) (lineno : Nat)
    (doc : Option String) : Option RouteRecord :=
  if strContains decStr "@app." || strContains decStr "@router." then
    parse_fastapi_route decStr fname lineno doc
  else if strContains decStr "@app.route" || strContains decStr "@blueprint.route" then
    parse_flask_route decStr fname lineno doc
  else none

mutual

/-- Route records contributed by one statement: every function definition
node reachable by ast.walk is inspected decorator by decorator. -/
def stmtRoutes : PyStmt → List RouteRecord
  | .pyFunctionDef _ n _ body decs ln =>
    decs.filterMap
      (fun d => route_for_decorator (decorator_to_string d) n ln (get_docstring body))
    ++ stmtListRoutes body
  | .pyClassDef _ _ body _ _ => stmtListRoutes body
  | .pyIf _ b o => stmtListRoutes b ++ stmtListRoutes o
  | .pyWhile _ b o => stmtListRoutes b ++ stmtListRoutes o
  | .pyFor _ _ b o => stmtListRoutes b ++ stmtListRoutes o
  | .pyTry b hs o f =>
    stmtListRoutes b ++ handlerListRoutes hs ++ stmtListRoutes o ++ stmtListRoutes f
  | _ => []

/-- Route records contributed by a statement list. -/
def stmtListRoutes : List PyStmt → List RouteRecord
  | [] => []
  | s :: t => stmtRoutes s ++ stmtListRoutes t

/-- Route records contributed by a handler list. -/
def handlerListRoutes : List PyHandler → List RouteRecord
  | [] => []
  | .mk body :: t => stmtListRoutes body ++ handlerListRoutes t

end

/-- CodeAnalyzer._detect_api_routes. -/
def detect_api_routes (tree : PyModule) : List RouteRecord :=
  stmtListRoutes tree.body

/-- CodeAnalyzer._identify_model_type. -/
def identify_model_type (baseStr : String) : String :=
  if strContains (strToLower baseStr) "django" || strContains baseStr "models.Model" then
    "django"
  else if strContains (strToLower baseStr) "sqlalchemy" || strContains baseStr "Base" then
    "sqlalchemy"
  else if strContains (strToLower baseStr) "pydantic" || strContains baseStr "BaseModel" then
    "pydantic"
  else "unknown"

/-- CodeAnalyzer._extract_model_fields: direct body items only; an annotated
assignment to a name yields the rendered annotation (the annotation of an
ast.AnnAssign node is always present, so the else-Any fallback of the
source is dead), a plain assignment yields inferred. -/
def extract_model_fields (body : List PyStmt) : List ModelField :=
  body.flatMap
    (fun item =>
      match item with
      | .pyAnnAssign (.pyName id) ann => [{ name := id, ftype := node_to_string ann }]
      | .pyAssign targets _ =>
        targets.filterMap
          (fun t => match t with
            | .pyName id => some { name := id, ftype := "inferred" }
            | _ => none)
      | _ => [])

/-- Model records contributed by one class definition: one record per base
whose rendering mentions Model or Base. -/
def classModels (cname : String) (bases : List PyExpr) (body : List PyStmt)
    (ln : Nat) : List ModelRecord :=
  bases.filterMap
    (fun base =>
      let baseStr := node_to_string base
      if strContains baseStr "Model" || strContains baseStr "Base" then
        some { name := cname, mtype := identify_model_type baseStr,
               fields := extract_model_fields body, line_number := ln }
      else none)

mutual

/-- Model records contributed by one statement under ast.walk. -/
def stmtModels : PyStmt → List ModelRecord
  | .pyClassDef n bases body _ ln => classModels n bases body ln ++ stmtListModels body
  | .pyFunctionDef _ _ _ body _ _ => stmtListModels body
  | .pyIf _ b o => stmtListModels b ++ stmtListModels o
  | .pyWhile _ b o => stmtListModels b ++ stmtListModels o
  | .pyFor _ _ b o => stmtListModels b ++ stmtListModels o
  | .pyTry b hs o f =>
    stmtListModels b ++ handlerListModels hs ++ stmtListModels o ++ stmtListModels f
  | _ => []

/-- Model records contributed by a statement list. -/
def stmtListModels : List PyStmt → List ModelRecord
  | [] => []
  | s :: t => stmtModels s ++ stmtListModels t

/-- Model records contributed by a handler list. -/
def handlerListModels : List PyHandler → List ModelRecord
  | [] => []
  | .mk body :: t => stmtListModels body ++ handlerListModels t

end

/-- CodeAnalyzer._detect_database_models. -/
def detect_database_models (tree : PyModule) : List ModelRecord :=
  stmtListModels tree.body

/-- CodeAnalyzer._infer_purpose: first-match-wins rule list over routes,
models, file name conventions and element counts. -/
def infer_purpose (file_path : String) (elements : List CodeElement)
    (api_routes : List RouteRecord) (db_models : List ModelRecord) : String :=
  let file_name := pathStem file_path
  if !api_routes.isEmpty then
    "API endpoint definitions with " ++ toString api_routes.length ++ " routes"
  else if !db_models.isEmpty then
    "Database models with " ++ toString db_models.length ++ " model definitions"
  else if strContains file_name "test_" || strContains file_name "_test" then
    "Test suite for unit/integration testing"
  else if strContains file_name "config" || strContains file_name "settings" then
    "Configuration and settings management"
  else if strContains file_name "util" || strContains file_name "helper" then
    "Utility functions and helper methods"
  else if !elements.isEmpty then
    let class_count := (elements.filter (fun e => e.type == "class")).length
    let func_count := (elements.filter (fun e => e.type == "function")).length
    "Module with " ++ toString class_count ++ " classes and " ++
      toString func_count ++ " functions"
  else "Python module"

/-- CodeAnalyzer.analyze_file on a file whose text parsed to the given tree.
Reading the file and ast.parse are external effects: the caller supplies the
raw text and the parsed module, and a parse failure is handled at the call
site in process_file. The md5 argument stands for the hashlib.md5 hex digest
and the now argument for the datetime.now timestamp. -/
def analyze_file (md5 : String → String) (now : String) (tree : PyModule)
    (file_path content : String) : FileAnalysis :=
  let elements := extract_elements tree file_path
  let api_routes := detect_api_routes tree
  let db_models := detect_database_models tree
  { file_path := file_path
    purpose := infer_purpose file_path elements api_routes db_models
    elements := elements
    imports := extract_imports tree
    api_routes := api_routes
    database_models := db_models
    content_hash := md5 content
    last_analyzed := now
    breaking_changes := []
    architecture_decisions := [] }

-- ## LLMAnalyzer: the Ollama collaborator is external; its availability and
-- raw response text are supplied as arguments

/-- The insight record produced by LLMAnalyzer._parse_llm_response. -/
structure LLMInsights where
  purpose : String
  architecture_decisions : List String
  breaking_changes : List String
  dependencies : List String
deriving Repr, DecidableEq

/-- The initial, empty insight record. -/
def emptyInsights : LLMInsights :=
  { purpose := "", architecture_decisions := [], breaking_changes := [],
    dependencies := [] }

/-- One step of the response line scan of _parse_llm_response. -/
def parse_llm_line (st : LLMInsights × Option String) (line : String) :
    LLMInsights × Option String :=
  let l := pyStrip line
  let ins := st.1
  let sec := st.2
  if strContains l "PURPOSE:" then (ins, some "purpose")
  else if strContains l "ARCHITECTURE_DECISIONS:" then (ins, some "architecture_decisions")
  else if strContains l "BREAKING_CHANGES:" then (ins, some "breaking_changes")
  else if strContains l "DEPENDENCIES:" then (ins, some "dependencies")
  else if strStartsWith l "- " &&
      (sec == some "architecture_decisions" || sec == some "breaking_changes" ||
       sec == some "dependencies") then
    let item := l.drop 2
    if sec == some "architecture_decisions" then
      ({ ins with architecture_decisions := ins.architecture_decisions ++ [item] }, sec)
    else if sec == some "breaking_changes" then
      ({ ins with breaking_changes := ins.breaking_changes ++ [item] }, sec)
    else
      ({ ins with dependencies := ins.dependencies ++ [item] }, sec)
  else if sec == some "purpose" && l != "" then
    ({ ins with purpose := l }, sec)
  else (ins, sec)

/-- LLMAnalyzer._parse_llm_response: scan the response line by line,
tracking the current section. -/
def parse_llm_response (response : String) : LLMInsights :=
  ((strSplitOn response "\n").foldl parse_llm_line (emptyInsights, none)).1

/-- LLMAnalyzer._fallback_analysis: heuristic breaking-change notes from
static signals. The any-generator truthiness checks of the source reduce to
non-emptiness because every produced route and model record is a non-empty
dict. -/
def fallback_analysis (fa : FileAnalysis) : FileAnalysis :=
  let bc1 :=
    if !fa.api_routes.isEmpty then
      ["Modifying API routes may break client applications"]
    else []
  let bc2 :=
    if !fa.database_models.isEmpty then
      ["Changing database models requires migration"]
    else []
  let complexFuncs := fa.elements.filter (fun e => 10 < e.complexity_score)
  let bc3 :=
    if !complexFuncs.isEmpty then
      ["High complexity functions (" ++ toString complexFuncs.length ++
       ") - changes may introduce bugs"]
    else []
  { fa with breaking_changes := bc1 ++ bc2 ++ bc3 }

/-- LLMAnalyzer.analyze_with_llm: when Ollama is unavailable, or generation
raises (modelled as an absent response), fall back to the heuristic
analysis; otherwise parse the response and overwrite the breaking-change
and architecture fields, and the purpose when the parsed purpose is
non-empty. -/
def analyze_with_llm (available : Bool) (response : Option String)
    (fa : FileAnalysis) : FileAnalysis :=
  if available then
    match response with
    | some r =>
      let ins := parse_llm_response r
      let fa1 := { fa with breaking_changes := ins.breaking_changes,
                           architecture_decisions := ins.architecture_decisions }
      if ins.purpose != "" then { fa1 with purpose := ins.purpose } else fa1
    | none => fallback_analysis fa
  else fallback_analysis fa

-- ## src/core/js_analyzer.py: pattern-based JavaScript and TypeScript
-- analysis. Each regex of the source is hand-translated to a matcher with
-- the same backtracking behaviour.

/-- The open brace character, written by code point. -/
def lbraceChar : Char := Char.ofNat 123

/-- The close brace character. -/
def rbraceChar : Char := Char.ofNat 125

/-- The backtick character. -/
def btkChar : Char := Char.ofNat 96

/-- js_analyzer.JSCodeElement. -/
structure JSCodeElement where
  name : String
  type : String
  file_path : String
  line_number : Nat
  docstring : Option String
  complexity_score : Int
  dependencies : List String
  exports : Bool
  signature : Option String := none
  metadata : Option ElemMeta := none
deriving Repr, DecidableEq

/-- A detected React component record. The source stores per-kind dict
keys: functional components carry hooks and props, class components carry
lifecycle and state; absent keys keep their defaults here. -/
structure ReactComponent where
  name : String
  ctype : String
  hooks : List String := []
  props : List String := []
  lifecycle : List String := []
  state : Bool := false
deriving Repr, DecidableEq

/-- A detected API call record. Fetch and axios entries store the captured
string under the url key and express entries under the path key; the
converter in doc_system reads whichever is present, so one field suffices. -/
structure ApiCall where
  ctype : String
  url : String
deriving Repr, DecidableEq

/-- js_analyzer.JSFileAnalysis. -/
structure JSFileAnalysis where
  file_path : String
  purpose : String
  elements : List JSCodeElement
  imports : List String
  exports : List String
  react_components : List ReactComponent
  api_calls : List ApiCall
  content_hash : String
  last_analyzed : String
  framework : String
deriving Repr, DecidableEq

/-- Match a literal token followed by one or more whitespace characters,
returning the rest after the whitespace. -/
def tokThenWs (tok : String) (cs : List Char) : Option (List Char) :=
  if tok.data.isPrefixOf cs then
    let r := cs.drop tok.length
    match r with
    | c :: _ => if pyIsSpace c then some (r.dropWhile pyIsSpace) else none
    | [] => none
  else none

/-- Capture one or more word characters at the head of the text. -/
def takeWord (cs : List Char) : Option (String × List Char) :=
  let w := cs.takeWhile pyIsWord
  if w.length > 0 then some (⟨w⟩, cs.drop w.length) else none

/-- Capture an uppercase letter followed by one or more word characters,
the regex bracket-A-Z backslash-w-plus of the component patterns. -/
def takeUpperWord (cs : List Char) : Option (String × List Char) :=
  match cs with
  | c :: rest =>
    if isUpperAZ c then
      let w := rest.takeWhile pyIsWord
      if w.length > 0 then some (⟨c :: w⟩, rest.drop w.length) else none
    else none
  | [] => none

/-- Match a parenthesised group whose body has no closing parenthesis, the
regex open-paren bracket-not-close-paren-star close-paren. -/
def afterParen (cs : List Char) : Option (List Char) :=
  match cs with
  | '(' :: r =>
    let inner := r.takeWhile (· != ')')
    match r.drop inner.length with
    | ')' :: rest => some rest
    | _ => none
  | _ => none

/-- The regular function pattern: optional export, optional async, the
function keyword, then the captured name. -/
def funcPat1 (line : List Char) : Option String :=
  let cs := line.dropWhile pyIsSpace
  let core := fun (c1 : List Char) =>
    let core2 := fun (c2 : List Char) =>
      match tokThenWs "function" c2 with
      | some c3 => (takeWord c3).map (·.1)
      | none => none
    (match tokThenWs "async" c1 with
     | some r => core2 r
     | none => none) <|> core2 c1
  (match tokThenWs "export" cs with
   | some r => core r
   | none => none) <|> core cs

/-- The arrow function pattern: optional export, a const let or var keyword,
the captured name, an equals sign, optional async, a parenthesised
parameter list and the arrow. -/
def funcPat2 (line : List Char) : Option String :=
  let cs := line.dropWhile pyIsSpace
  let core := fun (c1 : List Char) =>
    let kw : String → Option String := fun k =>
      match tokThenWs k c1 with
      | some r1 =>
        match takeWord r1 with
        | some (name, r2) =>
          match r2.dropWhile pyIsSpace with
          | '=' :: r4 =>
            let r5 := r4.dropWhile pyIsSpace
            let cont := fun (r6 : List Char) =>
              match afterParen r6 with
              | some r7 =>
                if "=>".data.isPrefixOf (r7.dropWhile pyIsSpace) then some name else none
              | none => none
            (match tokThenWs "async" r5 with
             | some r6 => cont r6
             | none => none) <|> cont r5
          | _ => none
        | none => none
      | none => none
    kw "const" <|> kw "let" <|> kw "var"
  (match tokThenWs "export" cs with
   | some r => core r
   | none => none) <|> core cs

/-- The method pattern: optional async, the captured name, a parenthesised
parameter list and an opening brace. -/
def funcPat3 (line : List Char) : Option String :=
  let cs := line.dropWhile pyIsSpace
  let core := fun (c1 : List Char) =>
    match takeWord c1 with
    | some (name, r1) =>
      match afterParen (r1.dropWhile pyIsSpace) with
      | some r3 =>
        match r3.dropWhile pyIsSpace with
        | c :: _ => if c == lbraceChar then some name else none
        | [] => none
      | none => none
    | none => none
  (match tokThenWs "async" cs with
   | some r => core r
   | none => none) <|> core cs

/-- The class pattern: optional export, optional default, the class keyword
and the captured name. -/
def classPat (line : List Char) : Option String :=
  let cs := line.dropWhile pyIsSpace
  let core := fun (c1 : List Char) =>
    let core2 := fun (c2 : List Char) =>
      match tokThenWs "class" c2 with
      | some c3 => (takeWord c3).map (·.1)
      | none => none
    (match tokThenWs "default" c1 with
     | some r => core2 r
     | none => none) <|> core2 c1
  (match tokThenWs "export" cs with
   | some r => core r
   | none => none) <|> core cs

/-- The interface pattern: optional export, the interface keyword and the
captured name. -/
def interfacePat (line : List Char) : Option String :=
  let cs := line.dropWhile pyIsSpace
  let core := fun (c1 : List Char) =>
    match tokThenWs "interface" c1 with
    | some c2 => (takeWord c2).map (·.1)
    | none => none
  (match tokThenWs "export" cs with
   | some r => core r
   | none => none) <|> core cs

/-- The type alias pattern: optional export, the type keyword and the
captured name. -/
def typePat (line : List Char) : Option String :=
  let cs := line.dropWhile pyIsSpace
  let core := fun (c1 : List Char) =>
    match tokThenWs "type" c1 with
    | some c2 => (takeWord c2).map (·.1)
    | none => none
  (match tokThenWs "export" cs with
   | some r => core r
   | none => none) <|> core cs

/-- The functional component pattern: optional export, optional default,
the function keyword and a captured capitalised name. -/
def compPat1 (line : List Char) : Option String :=
  let cs := line.dropWhile pyIsSpace
  let core := fun (c1 : List Char) =>
    let core2 := fun (c2 : List Char) =>
      match tokThenWs "function" c2 with
      | some c3 => (takeUpperWord c3).map (·.1)
      | none => none
    (match tokThenWs "default" c1 with
     | some r => core2 r
     | none => none) <|> core2 c1
  (match tokThenWs "export" cs with
   | some r => core r
   | none => none) <|> core cs

/-- The constant component pattern: optional export, the const keyword, a
captured capitalised name and an equals sign. -/
def compPat2 (line : List Char) : Option String :=
  let cs := line.dropWhile pyIsSpace
  let core := fun (c1 : List Char) =>
    match tokThenWs "const" c1 with
    | some r1 =>
      match takeUpperWord r1 with
      | some (name, r2) =>
        match r2.dropWhile pyIsSpace with
        | '=' :: _ => some name
        | _ => none
      | none => none
    | none => none
  (match tokThenWs "export" cs with
   | some r => core r
   | none => none) <|> core cs

/-- JavaScriptAnalyzer._calculate_complexity: one plus counts of textual
branch and logical tokens over the whole file content, capped at twenty.
The start line argument is accepted and ignored exactly as in the source. -/
def js_calculate_complexity (content : String) (startLine : Nat) : Int :=
  let _ := startLine
  let c : Int := 1
    + (strCount content "if " : Int)
    + (strCount content "else if" : Int)
    + (strCount content "switch " : Int)
    + (strCount content "for " : Int)
    + (strCount content "while " : Int)
    + (strCount content "catch " : Int)
    + (strCount content " ? " : Int)
    + (strCount content "&&" : Int)
    + (strCount content "||" : Int)
  min c 20

/-- The backwards collection loop of _extract_jsdoc: gather lines upward
from the given index until a line containing the comment opener, or the
first line, is reached. -/
def collectBack (lines : List String) : Nat → List String
  | 0 => [lines.getD 0 ""]
  | Nat.succ j =>
    let line := lines.getD (j + 1) ""
    if strContains line "/**" then [line]
    else collectBack lines j ++ [line]

/-- Match the line-leading star alternative of the jsdoc cleanup regex:
whitespace, a star, and at most one further whitespace character. Returns
the rest and whether the consumed text ended with a newline. -/
def matchStarLead (cs : List Char) : Option (List Char × Bool) :=
  let ws := cs.takeWhile pyIsSpace
  match cs.drop ws.length with
  | '*' :: r2 =>
    match r2 with
    | c2 :: r3 => if pyIsSpace c2 then some (r3, c2 == '\n') else some (r2, false)
    | [] => some ([], false)
  | _ => none

/-- The jsdoc cleanup substitution: a left-to-right scan removing comment
openers, comment closers and, at line starts, leading star decorations.
Structurally recursive on a fuel bound, one unit per consumed character,
so that concrete cleanups evaluate in the kernel. -/
def jsdocCleanGo : Nat → List Char → Bool → List Char
  | 0, _, _ => []
  | _ + 1, [], _ => []
  | f + 1, c :: rest, atStart =>
    if "/**".data.isPrefixOf (c :: rest) then jsdocCleanGo f ((c :: rest).drop 3) false
    else if "*/".data.isPrefixOf (c :: rest) then jsdocCleanGo f ((c :: rest).drop 2) false
    else if atStart then
      match matchStarLead (c :: rest) with
      | some (r2, nl) =>
        jsdocCleanGo f (rest.drop (rest.length - r2.length)) nl
      | none => c :: jsdocCleanGo f rest (c == '\n')
    else c :: jsdocCleanGo f rest (c == '\n')

/-- The cleanup substitution over a string. -/
def jsdocClean (s : String) : String :=
  ⟨jsdocCleanGo (s.data.length + 1) s.data true⟩

/-- JavaScriptAnalyzer._extract_jsdoc: look for a comment closer on the
indexed line, gather the comment lines upward, and clean and strip the
text when the gathered block starts with a comment opener. The index passed
by the element loop is the zero-based index of the declaration line itself,
exactly as in the source. -/
def extract_jsdoc (lines : List String) (idx : Nat) : Option String :=
  let line0 := lines.getD idx ""
  if strContains line0 "*/" then
    let jsdocLines := collectBack lines idx
    match jsdocLines with
    | first :: _ =>
      if strContains first "/**" then
        some (pyStrip (jsdocClean (String.intercalate "\n" jsdocLines)))
      else none
    | [] => none
  else none

/-- Generic findall loop: scan left to right, at each position try the
matcher; on a match record the capture and resume after the matched text,
otherwise advance one character. Structurally recursive on a fuel bound,
one unit per consumed character; every matcher below consumes at least one
character, so the text length suffices. -/
def findAllFuel (matchAt : List Char → Option (String × List Char)) :
    Nat → List Char → List String
  | 0, _ => []
  | _ + 1, [] => []
  | f + 1, c :: rest =>
    match matchAt (c :: rest) with
    | some (m, r) => m :: findAllFuel matchAt f (rest.drop (rest.length - r.length))
    | none => findAllFuel matchAt f rest

/-- re.findall over the text for one matcher. -/
def findAll (matchAt : List Char → Option (String × List Char)) (cs : List Char) :
    List String :=
  findAllFuel matchAt (cs.length + 1) cs

/-- Match a word followed by optional whitespace and an opening parenthesis,
returning the capture and the rest after the parenthesis. -/
def wordParenAt (cs : List Char) : Option (String × List Char) :=
  let w := cs.takeWhile pyIsWord
  if w.length == 0 then none
  else
    let r1 := cs.drop w.length
    let ws := r1.takeWhile pyIsSpace
    match r1.drop ws.length with
    | '(' :: r2 => some (⟨w⟩, r2)
    | _ => none

/-- findall for the call pattern word open-paren. -/
def findWordParen (cs : List Char) : List String :=
  findAll wordParenAt cs

/-- Match a dot, a word, optional whitespace and an opening parenthesis. -/
def dotWordParenAt (cs : List Char) : Option (String × List Char) :=
  match cs with
  | '.' :: r => wordParenAt r
  | _ => none

/-- findall for the method call pattern dot word open-paren. -/
def findDotWordParen (cs : List Char) : List String :=
  findAll dotWordParenAt cs

/-- JavaScriptAnalyzer._extract_dependencies: function calls and method
calls over the whole content, deduplicated as a set and truncated to
twenty entries. The Python set has unspecified iteration order, modelled as
first-occurrence order; no property below depends on which entries survive
the truncation. -/
def js_extract_dependencies (content : String) : List String :=
  ((findWordParen content.data ++ findDotWordParen content.data).eraseDups).take 20

/-- JavaScriptAnalyzer._extract_extends: search for the extends keyword
followed by a name. -/
def searchExtends : List Char → Option String
  | [] => none
  | c :: rest =>
    (match tokThenWs "extends" (c :: rest) with
     | some r => (takeWord r).map (·.1)
     | none => none) <|> searchExtends rest

/-- Match a quoted string of either quote kind, returning the capture and
the rest after the closing quote. -/
def matchQuotedRest (cs : List Char) : Option (String × List Char) :=
  match cs with
  | q :: r =>
    if q == dquoteChar || q == squoteChar then
      let inner := r.takeWhile (fun c => c != dquoteChar && c != squoteChar)
      if inner.length > 0 then
        match r.drop inner.length with
        | q2 :: rest2 =>
          if q2 == dquoteChar || q2 == squoteChar then some (⟨inner⟩, rest2) else none
        | [] => none
      else none
    else none
  | [] => none

/-- The from clause of the ES6 import regex, tried at one expansion point of
the lazy gap: whitespace, the from keyword, whitespace and a quoted
module. -/
def impFromAt (cs : List Char) : Option (String × List Char) :=
  match cs with
  | c :: _ =>
    if pyIsSpace c then
      let r := cs.dropWhile pyIsSpace
      if "from".data.isPrefixOf r then
        let r2 := r.drop 4
        match r2 with
        | c2 :: _ =>
          if pyIsSpace c2 then matchQuotedRest (r2.dropWhile pyIsSpace) else none
        | [] => none
      else none
    else none
  | [] => none

/-- The lazy gap of the ES6 import regex: expand the dot-star over
non-newline characters until the from clause matches. -/
def importTail : List Char → Option (String × List Char)
  | [] => none
  | c :: rest =>
    match impFromAt (c :: rest) with
    | some u => some u
    | none => if c == '\n' then none else importTail rest

/-- One ES6 import match attempt at the head of the text. -/
def importFromAt (cs : List Char) : Option (String × List Char) :=
  match tokThenWs "import" cs with
  | some r => importTail r
  | none => none

/-- findall for the ES6 import regex. -/
def findImportFrom (cs : List Char) : List String :=
  findAll importFromAt cs

/-- One CommonJS require match attempt: the require call around a quoted
module followed by the closing parenthesis. -/
def requireAt (cs : List Char) : Option (String × List Char) :=
  if "require(".data.isPrefixOf cs then
    match matchQuotedRest (cs.drop 8) with
    | some (m, r) =>
      match r with
      | ')' :: r2 => some (m, r2)
      | _ => none
    | none => none
  else none

/-- findall for the require regex. -/
def findRequire (cs : List Char) : List String :=
  findAll requireAt cs

/-- One dynamic import match attempt: the import call around a quoted module
followed by the closing parenthesis. -/
def dynImportAt (cs : List Char) : Option (String × List Char) :=
  if "import(".data.isPrefixOf cs then
    match matchQuotedRest (cs.drop 7) with
    | some (m, r) =>
      match r with
      | ')' :: r2 => some (m, r2)
      | _ => none
    | none => none
  else none

/-- findall for the dynamic import regex. -/
def findDynImport (cs : List Char) : List String :=
  findAll dynImportAt cs

/-- JavaScriptAnalyzer._extract_imports: ES6 imports, CommonJS requires and
dynamic imports, deduplicated as a set. The Python set has unspecified
iteration order, modelled as first-occurrence order. -/
def js_extract_imports (content : String) : List String :=
  (findImportFrom content.data ++ findRequire content.data ++
   findDynImport content.data).eraseDups

/-- One named export match attempt: the export keyword, a declarator
keyword and the captured name. -/
def exportNamedAt (cs : List Char) : Option (String × List Char) :=
  match tokThenWs "export" cs with
  | some r =>
    let kw : String → Option (String × List Char) := fun k =>
      match tokThenWs k r with
      | some r2 => takeWord r2
      | none => none
    kw "const" <|> kw "let" <|> kw "var" <|> kw "function" <|> kw "class"
  | none => none

/-- findall for the named export regex. -/
def findExportNamed (cs : List Char) : List String :=
  findAll exportNamedAt cs

/-- One export statement match attempt: the export keyword, whitespace, an
open brace, a non-empty braceless body and a close brace. -/
def exportStmtAt (cs : List Char) : Option (String × List Char) :=
  if "export".data.isPrefixOf cs then
    let r := cs.drop 6
    match r with
    | c :: _ =>
      if pyIsSpace c then
        let r2 := r.dropWhile pyIsSpace
        match r2 with
        | b :: r3 =>
          if b == lbraceChar then
            let inner := r3.takeWhile (· != rbraceChar)
            if inner.length > 0 then
              match r3.drop inner.length with
              | _ :: r4 => some (⟨inner⟩, r4)
              | [] => none
            else none
          else none
        | [] => none
      else none
    | [] => none
  else none

/-- findall for the export statement regex. -/
def findExportStmt (cs : List Char) : List String :=
  findAll exportStmtAt cs

/-- JavaScriptAnalyzer._extract_exports: named exports, brace export
statements split on commas and stripped, and a default marker, deduplicated
as a set, modelled in first-occurrence order. -/
def js_extract_exports (content : String) : List String :=
  let named := findExportNamed content.data
  let stmts := (findExportStmt content.data).flatMap (fun g => (strSplitOn g ",").map pyStrip)
  let dflt := if strContains content "export default" then ["default"] else []
  (named ++ stmts ++ dflt).eraseDups

/-- The brace capture of the props function regex: after an open brace,
greedy whitespace, then a non-empty braceless capture that keeps trailing
whitespace, with one whitespace character given back when the body is all
whitespace. -/
def innerBraceCapture (r : List Char) : Option String :=
  let mid := r.takeWhile (· != rbraceChar)
  match r.drop mid.length with
  | [] => none
  | _ :: _ =>
    if mid.isEmpty then none
    else
      let lead := mid.takeWhile pyIsSpace
      if lead.length == mid.length then some ⟨mid.drop (mid.length - 1)⟩
      else some ⟨mid.drop lead.length⟩

/-- The lazy gap before the brace of the props function regex: expand over
non-newline characters, trying the brace capture at each open brace. -/
def lazyBraceSearch : List Char → Option String
  | [] => none
  | c :: rest =>
    if c == lbraceChar then
      match innerBraceCapture rest with
      | some g => some g
      | none => lazyBraceSearch rest
    else if c == '\n' then none
    else lazyBraceSearch rest

/-- One match attempt of the props interface regex: the interface keyword,
the component name followed by Props, optional whitespace, and a braced
non-empty body. -/
def propsInterfaceAt (nm : String) (cs : List Char) : Option String :=
  match tokThenWs "interface" cs with
  | some r1 =>
    if (nm ++ "Props").data.isPrefixOf r1 then
      let r2 := (r1.drop (nm.length + 5)).dropWhile pyIsSpace
      match r2 with
      | b :: r3 =>
        if b == lbraceChar then
          let inner := r3.takeWhile (· != rbraceChar)
          if inner.length > 0 then
            match r3.drop inner.length with
            | _ :: _ => some ⟨inner⟩
            | [] => none
          else none
        else none
      | [] => none
    else none
  | none => none

/-- re.search for the props interface regex. -/
def searchPropsInterface (nm : String) : List Char → Option String
  | [] => none
  | c :: rest =>
    match propsInterfaceAt nm (c :: rest) with
    | some g => some g
    | none => searchPropsInterface nm rest

/-- One match attempt of the props function regex: a function or const
keyword, the component name, a lazy same-line gap and a braced capture. -/
def propsFuncAt (nm : String) (cs : List Char) : Option String :=
  let go : String → Option String := fun kw =>
    match tokThenWs kw cs with
    | some r1 =>
      if nm.data.isPrefixOf r1 then lazyBraceSearch (r1.drop nm.length)
      else none
    | none => none
  go "function" <|> go "const"

/-- re.search for the props function regex. -/
def searchPropsFunc (nm : String) : List Char → Option String
  | [] => none
  | c :: rest =>
    match propsFuncAt nm (c :: rest) with
    | some g => some g
    | none => searchPropsFunc nm rest

/-- A prop line of the interface body: optional whitespace then a captured
word. -/
def propLineName (line : String) : Option String :=
  (takeWord (line.data.dropWhile pyIsSpace)).map (·.1)

/-- JavaScriptAnalyzer._extract_props: interface body lines and destructured
parameters, deduplicated as a set, modelled in first-occurrence order. -/
def js_extract_props (content : String) (nm : String) : List String :=
  let ifaceProps :=
    match searchPropsInterface nm content.data with
    | some g => (strSplitOn g "\n").filterMap propLineName
    | none => []
  let funcProps :=
    match searchPropsFunc nm content.data with
    | some g => (strSplitOn g ",").map pyStrip
    | none => []
  (ifaceProps ++ funcProps).eraseDups

/-- One hook match attempt: the literal use, an uppercase letter and any
further word characters, with the matched length. -/
def hookAt (cs : List Char) : Option (String × List Char) :=
  if "use".data.isPrefixOf cs then
    match cs.drop 3 with
    | c :: r =>
      if isUpperAZ c then
        let w := r.takeWhile pyIsWord
        some (⟨'u' :: 's' :: 'e' :: c :: w⟩, r.drop w.length)
      else none
    | [] => none
  else none

/-- findall for the hook regex. -/
def findHooks (cs : List Char) : List String :=
  findAll hookAt cs

/-- JavaScriptAnalyzer._extract_hooks, deduplicated as a set, modelled in
first-occurrence order. -/
def js_extract_hooks (content : String) : List String :=
  (findHooks content.data).eraseDups

/-- JavaScriptAnalyzer._extract_lifecycle_methods: the fixed list filtered
by substring membership. -/
def js_extract_lifecycle (content : String) : List String :=
  ["componentDidMount", "componentDidUpdate", "componentWillUnmount",
   "shouldComponentUpdate", "componentDidCatch", "getDerivedStateFromProps"].filter
    (fun m => strContains content m)

/-- The lazy gap of the functional component regex: expand over non-newline
characters until an arrow or an open brace. -/
def lazyArrowOrBrace : List Char → Option (List Char)
  | [] => none
  | c :: rest =>
    if "=>".data.isPrefixOf (c :: rest) then some ((c :: rest).drop 2)
    else if c == lbraceChar then some rest
    else if c == '\n' then none
    else lazyArrowOrBrace rest

/-- One functional component match attempt: optional export, a const or
function keyword, a captured capitalised name and the lazy gap up to an
arrow or brace. -/
def compMatchAt (cs : List Char) : Option (String × List Char) :=
  let core : List Char → Option (String × List Char) := fun c1 =>
    let kw : String → Option (String × List Char) := fun k =>
      match tokThenWs k c1 with
      | some r1 =>
        match takeUpperWord r1 with
        | some (nm, r2) =>
          match lazyArrowOrBrace r2 with
          | some r3 => some (nm, r3)
          | none => none
        | none => none
      | none => none
    kw "const" <|> kw "function"
  (match tokThenWs "export" cs with
   | some r => core r
   | none => none) <|> core cs

/-- findall for the functional component regex. -/
def findCompMatches (cs : List Char) : List String :=
  findAll compMatchAt cs

/-- One class component match attempt: the class keyword, a captured
capitalised name, the extends keyword and the Component base with optional
React prefix. -/
def classCompAt (cs : List Char) : Option (String × List Char) :=
  match tokThenWs "class" cs with
  | some r1 =>
    match takeUpperWord r1 with
    | some (nm, r2) =>
      match r2 with
      | c :: _ =>
        if pyIsSpace c then
          let r3 := r2.dropWhile pyIsSpace
          if "extends".data.isPrefixOf r3 then
            let r4 := r3.drop 7
            match r4 with
            | c2 :: _ =>
              if pyIsSpace c2 then
                let r5 := r4.dropWhile pyIsSpace
                let r6 := if "React.".data.isPrefixOf r5 then r5.drop 6 else r5
                if "Component".data.isPrefixOf r6 then some (nm, r6.drop 9) else none
              else none
            | [] => none
          else none
        else none
      | [] => none
    | none => none
  | none => none

/-- findall for the class component regex. -/
def findClassCompMatches (cs : List Char) : List String :=
  findAll classCompAt cs

/-- JavaScriptAnalyzer._detect_react_components. -/
def js_detect_react_components (content : String) : List ReactComponent :=
  let funcs := findCompMatches content.data
  let classes := findClassCompMatches content.data
  funcs.map (fun nm =>
    { name := nm, ctype := "functional",
      hooks := js_extract_hooks content,
      props := js_extract_props content nm })
  ++ classes.map (fun nm =>
    { name := nm, ctype := "class",
      lifecycle := js_extract_lifecycle content,
      state := strContains content "this.state" })

/-- Quote characters of the API call regexes: single, double or backtick. -/
def isCallQuote (c : Char) : Bool :=
  c == squoteChar || c == dquoteChar || c == btkChar

/-- Match a call-quoted capture: a quote of any of the three kinds, one or
more characters that are neither a quote nor a closing parenthesis, and a
closing quote of any kind, returning the capture and the rest. -/
def matchCallQuoted (cs : List Char) : Option (String × List Char) :=
  match cs with
  | q :: r =>
    if isCallQuote q then
      let inner := r.takeWhile (fun c => !(isCallQuote c) && c != ')')
      if inner.length > 0 then
        match r.drop inner.length with
        | q2 :: rest2 => if isCallQuote q2 then some (⟨inner⟩, rest2) else none
        | [] => none
      else none
    else none
  | [] => none

/-- One fetch call match attempt. -/
def fetchAt (cs : List Char) : Option (String × List Char) :=
  if "fetch(".data.isPrefixOf cs then matchCallQuoted (cs.drop 6) else none

/-- One axios call match attempt: axios, a dot, an HTTP verb and an opening
parenthesis before the quoted capture. -/
def axiosAt (cs : List Char) : Option (String × List Char) :=
  if "axios.".data.isPrefixOf cs then
    match matchVerb (cs.drop 6) with
    | some (_, r) =>
      match r with
      | '(' :: r2 => matchCallQuoted r2
      | _ => none
    | none => none
  else none

/-- One express route match attempt: app, a dot, an HTTP verb and an opening
parenthesis before the quoted capture. -/
def expressAt (cs : List Char) : Option (String × List Char) :=
  if "app.".data.isPrefixOf cs then
    match matchVerb (cs.drop 4) with
    | some (_, r) =>
      match r with
      | '(' :: r2 => matchCallQuoted r2
      | _ => none
    | none => none
  else none

/-- findall for the fetch regex. -/
def findFetch (cs : List Char) : List String :=
  findAll fetchAt cs

/-- findall for the axios regex. -/
def findAxios (cs : List Char) : List String :=
  findAll axiosAt cs

/-- findall for the express route regex. -/
def findExpress (cs : List Char) : List String :=
  findAll expressAt cs

/-- JavaScriptAnalyzer._detect_api_calls: fetch calls, axios calls and
express routes, in that order. -/
def js_detect_api_calls (content : String) : List ApiCall :=
  (findFetch content.data).map (fun u => { ctype := "fetch", url := u })
  ++ (findAxios content.data).map (fun u => { ctype := "axios", url := u })
  ++ (findExpress content.data).map (fun u => { ctype := "express_route", url := u })

/-- Existence of tokens in order on one line, the same-line dot-star gaps of
the framework regexes. -/
def dropAfterSub (needle : List Char) : List Char → Option (List Char)
  | [] => if needle.isEmpty then some [] else none
  | c :: t =>
    if needle.isPrefixOf (c :: t) then some ((c :: t).drop needle.length)
    else dropAfterSub needle t

/-- Match a token sequence left to right within one line. -/
def seqInLine : List String → List Char → Bool
  | [], _ => true
  | t :: rest, line =>
    match dropAfterSub t.data line with
    | some r => seqInLine rest r
    | none => false

/-- Search every line of the content for the token sequence. -/
def seqSameLine (toks : List String) (content : String) : Bool :=
  (strSplitOn content "\n").any (fun l => seqInLine toks l.data)

/-- The string containing one open brace. -/
def braceStr : String := ⟨[lbraceChar]⟩

/-- JavaScriptAnalyzer._detect_framework: the framework pattern table probed
in insertion order with case-insensitive search, then the file extension
and component-name fallbacks. -/
def js_detect_framework (content file_path : String) : String :=
  let lc := strToLower content
  if seqSameLine ["import", "from", "react"] lc || strContains lc "react." ||
     strContains lc "usestate" || strContains lc "useeffect" ||
     strContains lc "jsx" then "react"
  else if strContains lc "<template>" || strContains lc "<script>" ||
     strContains lc "vue." ||
     seqSameLine ["export default", braceStr] lc then "vue"
  else if strContains lc "@component" || strContains lc "@injectable" ||
     seqSameLine ["import", "from", "@angular"] lc then "angular"
  else if strContains lc "express()" || strContains lc "app.get" ||
     strContains lc "app.post" || strContains lc "router." then "express"
  else if seqSameLine ["import", "from", "next"] lc ||
     strContains lc "getserversideprops" ||
     strContains lc "getstaticprops" then "next"
  else if strEndsWith file_path ".vue" then "vue"
  else if strContains (strToLower file_path) "component" then "react"
  else "vanilla"

/-- Python str.capitalize: first character uppercased, the rest lowered. -/
def pyCapitalize (s : String) : String :=
  match s.data with
  | [] => ""
  | c :: t => ⟨c.toUpper :: t.map Char.toLower⟩

/-- JavaScriptAnalyzer._infer_purpose. -/
def js_infer_purpose (file_path : String) (elements : List JSCodeElement)
    (components : List ReactComponent) (api_calls : List ApiCall)
    (framework : String) : String :=
  let file_name := pathStem file_path
  if !components.isEmpty then
    "React components: " ++ String.intercalate ", " ((components.take 3).map (·.name))
  else if !api_calls.isEmpty && api_calls.any (fun a => a.ctype == "express_route") then
    "API endpoints with " ++ toString api_calls.length ++ " routes"
  else if strContains file_name "test" || strContains file_name "spec" then
    "Test suite"
  else if strContains file_name "config" then "Configuration"
  else if strContains file_name "utils" || strContains file_name "helpers" then
    "Utility functions"
  else if strContains file_name "index" then "Module entry point"
  else if framework != "vanilla" then pyCapitalize framework ++ " module"
  else "JavaScript module with " ++ toString elements.length ++ " elements"

/-- The elements contributed by one line in JavaScriptAnalyzer
._extract_elements: each matching function pattern appends an element, then
the class, interface, type and component patterns are tried, in source
order. The line number is one-based. -/
def js_line_elements (content : String) (lines : List String)
    (file_path : String) (i : Nat) (line : String) : List JSCodeElement :=
  let lc := line.data
  let isExp := strContains line "export"
  let doc := extract_jsdoc lines (i - 1)
  let funcs :=
    ([funcPat1 lc, funcPat2 lc, funcPat3 lc].filterMap id).map (fun nm =>
      { name := nm, type := "function", file_path := file_path, line_number := i,
        docstring := doc, complexity_score := js_calculate_complexity content i,
        dependencies := js_extract_dependencies content,
        exports := isExp, signature := some (pyStrip line) : JSCodeElement })
  let classes :=
    match classPat lc with
    | some nm =>
      [{ name := nm, type := "class", file_path := file_path, line_number := i,
         docstring := doc, complexity_score := js_calculate_complexity content i,
         dependencies := js_extract_dependencies content,
         exports := isExp, metadata := some (.extendsMeta (searchExtends lc)) : JSCodeElement }]
    | none => []
  let ifaces :=
    match interfacePat lc with
    | some nm =>
      [{ name := nm, type := "interface", file_path := file_path, line_number := i,
         docstring := doc, complexity_score := 0, dependencies := [],
         exports := isExp : JSCodeElement }]
    | none => []
  let types :=
    match typePat lc with
    | some nm =>
      [{ name := nm, type := "type", file_path := file_path, line_number := i,
         docstring := doc, complexity_score := 0, dependencies := [],
         exports := isExp : JSCodeElement }]
    | none => []
  let comps :=
    (([compPat1 lc, compPat2 lc].filterMap id).filter (fun nm =>
      match nm.data with
      | c :: _ => isUpperAZ c
      | [] => false)).map (fun nm =>
      { name := nm, type := "component", file_path := file_path, line_number := i,
        docstring := doc, complexity_score := js_calculate_complexity content i,
        dependencies := js_extract_dependencies content,
        exports := isExp, metadata := some (.propsMeta (js_extract_props content nm)) : JSCodeElement })
  funcs ++ classes ++ ifaces ++ types ++ comps

/-- JavaScriptAnalyzer._extract_elements: line-by-line pattern matching with
one-based line numbers. -/
def js_extract_elements (content : String) (file_path : String) : List JSCodeElement :=
  let lines := strSplitOn content "\n"
  (List.range lines.length).flatMap (fun idx =>
    js_line_elements content lines file_path (idx + 1) (lines.getD idx ""))

/-- JavaScriptAnalyzer.analyze_file. Reading the file is external: the
caller supplies the raw text. The source also computes an is-typescript
flag that it never uses. -/
def js_analyze_file (md5 : String → String) (now : String)
    (file_path content : String) : JSFileAnalysis :=
  let is_jsx := strEndsWith file_path ".jsx" || strEndsWith file_path ".tsx"
  let elements := js_extract_elements content file_path
  let imports := js_extract_imports content
  let exports := js_extract_exports content
  let react_components := if is_jsx then js_detect_react_components content else []
  let api_calls := js_detect_api_calls content
  let framework := js_detect_framework content file_path
  { file_path := file_path
    purpose := js_infer_purpose file_path elements react_components api_calls framework
    elements := elements
    imports := imports
    exports := exports
    react_components := react_components
    api_calls := api_calls
    content_hash := md5 content
    last_analyzed := now
    framework := framework }

-- ## SemanticIndexer: document construction is repository code; the
-- ChromaDB collection itself is an external collaborator

/-- A document of the file_overviews collection with its metadata fields. -/
structure FileDoc where
  id : String
  document : String
  md_file_path : String
  md_purpose : String
  md_api_routes : Nat
  md_models : Nat
  md_last_analyzed : String
deriving Repr, DecidableEq

/-- A document of the code_elements collection with its metadata fields. -/
structure ElemDoc where
  id : String
  document : String
  md_name : String
  md_type : String
  md_file_path : String
  md_line_number : Nat
  md_complexity : Int
  md_has_docstring : Bool
deriving Repr, DecidableEq

/-- The two ChromaDB collections held by SemanticIndexer. -/
structure IndexerState where
  file_collection : List FileDoc
  element_collection : List ElemDoc
deriving Repr, DecidableEq

/-- Modelled from the spec: the ChromaDB collection upsert consumed through
the narrow collaborator contract, which the spec describes as re-indexing
the same id overwriting it, an idempotent upsert. The document at an
existing id is replaced in place and a new id is appended. -/
def upsertBy {α : Type} (getId : α → String) (docs : List α) (d : α) : List α :=
  if docs.any (fun x => getId x == getId d) then
    docs.map (fun x => if getId x == getId d then d else x)
  else docs ++ [d]

/-- Python truthiness of an optional string: None and the empty string are
falsy. -/
def pyTruthyStr (o : Option String) : Bool :=
  match o with
  | some s => s != ""
  | none => false

/-- The file-level document built by SemanticIndexer.index_file: the id is
the file path and the text is the purpose and the joined imports. -/
def index_file_doc (fa : FileAnalysis) : FileDoc :=
  { id := fa.file_path
    document := fa.purpose ++ "\n" ++ String.intercalate " " fa.imports
    md_file_path := fa.file_path
    md_purpose := fa.purpose
    md_api_routes := fa.api_routes.length
    md_models := fa.database_models.length
    md_last_analyzed := fa.last_analyzed }

/-- The element-level document id of SemanticIndexer._index_element: file
path, name and line number joined by double colons. -/
def element_id (e : CodeElement) : String :=
  e.file_path ++ "::" ++ e.name ++ "::" ++ toString e.line_number

/-- The searchable text of SemanticIndexer._index_element. -/
def element_doc_text (e : CodeElement) : String :=
  String.intercalate " "
    [e.type ++ " " ++ e.name, e.docstring.getD "",
     String.intercalate " " e.dependencies,
     String.intercalate " " e.decorators]

/-- SemanticIndexer._index_element: upsert one element document. -/
def index_element (st : IndexerState) (e : CodeElement) : IndexerState :=
  let doc : ElemDoc :=
    { id := element_id e
      document := element_doc_text e
      md_name := e.name
      md_type := e.type
      md_file_path := e.file_path
      md_line_number := e.line_number
      md_complexity := e.complexity_score
      md_has_docstring := pyTruthyStr e.docstring }
  { st with element_collection := upsertBy (·.id) st.element_collection doc }

/-- SemanticIndexer.index_file: upsert the file-level document, then each
element document in order. -/
def index_file (fa : FileAnalysis) (st : IndexerState) : IndexerState :=
  let st1 : IndexerState :=
    { st with file_collection := upsertBy (·.id) st.file_collection (index_file_doc fa) }
  fa.elements.foldl index_element st1

-- ## DocumentationSystem: metadata, change detection and per-file pipeline

/-- A persisted metadata record, one per tracked file. -/
structure MetadataRecord where
  content_hash : String
  last_analyzed : String
  elements_count : Nat
  purpose : String
deriving Repr, DecidableEq

/-- The orchestrator state: the metadata map and the vector store. -/
structure DocSystemState where
  metadata : List (String × MetadataRecord)
  indexer : IndexerState
deriving Repr, DecidableEq

/-- Python dict assignment on an association list: replace the value at an
existing key, append otherwise, preserving insertion order as Python dicts
do. -/
def setKey {β : Type} (m : List (String × β)) (k : String) (v : β) :
    List (String × β) :=
  if m.any (fun p => p.1 == k) then m.map (fun p => if p.1 == k then (k, v) else p)
  else m ++ [(k, v)]

/-- The supported extension set of should_process_file. -/
def supported_extensions : List String := [".py", ".js", ".jsx", ".ts", ".tsx"]

/-- DocumentationSystem._load_metadata: a missing metadata file yields the
empty map; an existing file is passed to json.load, which is external and
supplied as the parse argument. The source does not guard the call, so an
unparsable file makes json.load raise, modelled as an error result. -/
def load_metadata (parse : String → Option (List (String × MetadataRecord)))
    (file : Option String) : Except String (List (String × MetadataRecord)) :=
  match file with
  | some s =>
    match parse s with
    | some m => Except.ok m
    | none => Except.error "JSONDecodeError"
  | none => Except.ok []

/-- DocumentationSystem.should_process_file: false for unsupported
extensions, for paths with an ignored component, and for tracked files
whose stored hash equals the hash of the current content; the metadata map
is keyed by the str form of the path while process_file stores the raw
path string. File reading is external: the current content is supplied. -/
def should_process_file (md5 : String → String)
    (metadata : List (String × MetadataRecord)) (file_path content : String) : Bool :=
  if !(supported_extensions.contains (pathSuffix file_path)) then false
  else if (pathParts file_path).any
      (fun part => should_ignore_path part get_comprehensive_ignore_patterns) then false
  else
    match metadata.lookup (pathStr file_path) with
    | some md => !(md.content_hash == md5 content)
    | none => true

/-- DocumentationSystem._convert_js_to_common_analysis. -/
def convert_js_to_common_analysis (ja : JSFileAnalysis) : FileAnalysis :=
  let elements := ja.elements.map (fun je =>
    { name := je.name, type := je.type, file_path := je.file_path,
      line_number := je.line_number, docstring := je.docstring,
      complexity_score := je.complexity_score, dependencies := je.dependencies,
      decorators := [], signature := je.signature,
      metadata := je.metadata : CodeElement })
  let compRoutes := ja.react_components.map (fun comp =>
    { method := RouteMethod.single "COMPONENT", path := "/" ++ comp.name,
      handler := comp.name, line_number := 0,
      docstring := some (comp.ctype ++ " React component") : RouteRecord })
  let callRoutes := ja.api_calls.map (fun api =>
    { method := RouteMethod.single (strToUpper api.ctype), path := api.url,
      handler := "api_call", line_number := 0, docstring := none : RouteRecord })
  { file_path := ja.file_path
    purpose := ja.purpose
    elements := elements
    imports := ja.imports
    api_routes := compRoutes ++ callRoutes
    database_models := []
    content_hash := ja.content_hash
    last_analyzed := ja.last_analyzed
    breaking_changes := []
    architecture_decisions := ["Framework: " ++ ja.framework] }

/-- DocumentationSystem.process_file: skip when should_process_file is
false; otherwise analyze by extension (the parsed argument is the ast.parse
outcome for Python files and the js_available flag reflects whether the
JavaScript analyzer imported), enhance with the LLM collaborator, index,
and overwrite the metadata record under the raw path string. Markdown
generation and metadata persistence are external outputs excluded from the
core and not modelled. -/
def process_file (md5 : String → String) (now : String)
    (llm_available : Bool) (llm_response : Option String)
    (js_available : Bool) (parsed : Option PyModule)
    (st : DocSystemState) (file_path content : String) :
    DocSystemState × Option FileAnalysis :=
  if !(should_process_file md5 st.metadata file_path content) then (st, none)
  else
    let analysisOpt : Option FileAnalysis :=
      if pathSuffix file_path == ".py" then
        match parsed with
        | some tree => some (analyze_file md5 now tree file_path content)
        | none => none
      else if [".js", ".jsx", ".ts", ".tsx"].contains (pathSuffix file_path)
          && js_available then
        some (convert_js_to_common_analysis (js_analyze_file md5 now file_path content))
      else none
    match analysisOpt with
    | none => (st, none)
    | some analysis0 =>
      let analysis := analyze_with_llm llm_available llm_response analysis0
      let indexer := index_file analysis st.indexer
      let metadata := setKey st.metadata file_path
        { content_hash := analysis.content_hash
          last_analyzed := analysis.last_analyzed
          elements_count := analysis.elements.length
          purpose := analysis.purpose }
      ({ metadata := metadata, indexer := indexer }, some analysis)

-- ## src/scripts/watch.py: the debounced watch loop

/-- DocumentationSystem.ignored_patterns, the small deny set checked by the
watcher with substring matching. -/
def doc_ignored_patterns : List String :=
  ["__pycache__", ".pytest_cache", ".git", "venv", ".venv",
   "node_modules", "__init__.py", "migrations", ".pyc"]

/-- The debounce bookkeeping of DocumentationWatcher. Event times are
natural numbers of seconds; the stored default for an unseen path is zero,
as in the source. Truncated subtraction agrees with the float arithmetic of
the source whenever the debounce window is positive, because both sides
only compare differences against the window. -/
structure WatcherState where
  pending_files : List (String × Nat)
  last_event_time : List (String × Nat)
  debounce_seconds : Nat
deriving Repr, DecidableEq

/-- The initial watcher state with the configured debounce window. -/
def initial_watcher (debounce : Nat) : WatcherState :=
  { pending_files := [], last_event_time := [], debounce_seconds := debounce }

/-- DocumentationWatcher.should_process: within the window of the stored
last event time the path is recorded as pending and suppressed; otherwise
the last event time is updated and the event passes. -/
def watcher_should_process (st : WatcherState) (file_path : String) (now : Nat) :
    Bool × WatcherState :=
  let last := (st.last_event_time.lookup file_path).getD 0
  if now - last < st.debounce_seconds then
    (false, { st with pending_files := setKey st.pending_files file_path now })
  else
    (true, { st with last_event_time := setKey st.last_event_time file_path now })

/-- DocumentationWatcher.process_pending: dispatch and drop every pending
path that has been quiescent for the window; dispatches are recorded as
pairs of path and dispatch time. -/
def process_pending (st : WatcherState) (now : Nat) :
    WatcherState × List (String × Nat) :=
  let ready := st.pending_files.filter (fun pt => st.debounce_seconds ≤ now - pt.2)
  let remaining := st.pending_files.filter (fun pt => !(st.debounce_seconds ≤ now - pt.2))
  ({ st with pending_files := remaining }, ready.map (fun pt => (pt.1, now)))

/-- DocumentationWatcher.on_modified: directory events, non-Python paths and
paths containing an ignored pattern as a substring are dropped; the
debounce check then either dispatches the path to _process_file immediately
or records it as pending. on_created delegates to this handler. -/
def on_modified (st : WatcherState) (isDir : Bool) (file_path : String) (now : Nat) :
    WatcherState × List (String × Nat) :=
  if isDir then (st, [])
  else if !(strEndsWith file_path ".py") then (st, [])
  else if doc_ignored_patterns.any (fun pat => strContains file_path pat) then (st, [])
  else
    let r := watcher_should_process st file_path now
    if r.1 then (r.2, [(file_path, now)]) else (r.2, [])

/-- The DocumentationSystem class defines no remove_file method anywhere in
the repository sources, and no other definition of that name exists; the
attribute lookup performed by the deletion handler therefore raises
AttributeError, modelled as an error value. -/
def remove_file_lookup : Except String (DocSystemState → String → DocSystemState) :=
  Except.error "AttributeError: DocumentationSystem object has no attribute remove_file"

/-- DocumentationWatcher.on_deleted: after the directory, extension and
ignore filters, the handler calls doc_system.remove_file inside a
try-except; the lookup raises, the handler logs the error, and the
documentation system state is left unchanged. The Bool reports whether the
error branch ran. -/
def on_deleted (doc : DocSystemState) (isDir : Bool) (file_path : String) :
    DocSystemState × Bool :=
  if isDir then (doc, false)
  else if !(strEndsWith file_path ".py") then (doc, false)
  else if doc_ignored_patterns.any (fun pat => strContains file_path pat) then (doc, false)
  else
    match remove_file_lookup with
    | Except.ok f => (f doc file_path, false)
    | Except.error _ => (doc, true)

/-- An event consumed by the watch loop: a file modification or a periodic
sweep tick. -/
inductive WatchEvent where
  | modifyEvt (isDir : Bool) (path : String) (time : Nat)
  | tickEvt (time : Nat)
deriving Repr, DecidableEq

/-- One step of the watch loop, accumulating dispatched _process_file
calls. -/
def watch_step (acc : WatcherState × List (String × Nat)) (e : WatchEvent) :
    WatcherState × List (String × Nat) :=
  match e with
  | .modifyEvt d p t =>
    let r := on_modified acc.1 d p t
    (r.1, acc.2 ++ r.2)
  | .tickEvt t =>
    let r := process_pending acc.1 t
    (r.1, acc.2 ++ r.2)

/-- Run the watch loop over an event sequence from a given state. -/
def run_watch (events : List WatchEvent) (st : WatcherState) :
    WatcherState × List (String × Nat) :=
  events.foldl watch_step (st, [])

/-- The parsed tree of the file whose entire content is the single line
def add(a, b): return a + b, as ast.parse produces it. -/
def addModule : PyModule :=
  ⟨[PyStmt.pyFunctionDef false "add" ["a", "b"]
      [PyStmt.pyReturn (some (PyExpr.pyBinOp (PyExpr.pyName "a") (PyExpr.pyName "b")))]
      [] 1]⟩

/-- A concrete non-empty documentation state used by witnesses. -/
def sample_doc_state : DocSystemState :=
  { metadata := [("a.py",
      { content_hash := "h", last_analyzed := "T", elements_count := 0, purpose := "p" })]
    indexer := { file_collection := [], element_collection := [] } }

/-- A concrete analysis record used by the C3 witness. -/
def sample_analysis : FileAnalysis :=
  { file_path := "calc.py", purpose := "p"
    elements :=
      [{ name := "f", type := "function", file_path := "calc.py", line_number := 1,
         docstring := none, complexity_score := 1, dependencies := [], decorators := [] },
       { name := "g", type := "function", file_path := "calc.py", line_number := 2,
         docstring := none, complexity_score := 1, dependencies := [], decorators := [] }]
    imports := [], api_routes := [], database_models := [], content_hash := "h"
    last_analyzed := "T", breaking_changes := [], architecture_decisions := [] }

mutual

/-- Well-formedness of a parsed expression as ast.parse guarantees it:
every boolean operator chain carries at least two operands. -/
def wfExpr : PyExpr → Bool
  | .pyName _ => true
  | .pyAttr v _ => wfExpr v
  | .pyCall f args => wfExpr f && wfExprList args
  | .pyBoolOp values => decide (2 ≤ values.length) && wfExprList values
  | .pyBinOp l r => wfExpr l && wfExpr r
  | .pyStrConst _ => true
  | .pyConst _ => true

/-- Well-formedness of an expression list. -/
def wfExprList : List PyExpr → Bool
  | [] => true
  | e :: t => wfExpr e && wfExprList t

/-- Well-formedness of a parsed statement. -/
def wfStmt : PyStmt → Bool
  | .pyExprStmt e => wfExpr e
  | .pyReturn none => true
  | .pyReturn (some e) => wfExpr e
  | .pyAssign ts v => wfExprList ts && wfExpr v
  | .pyAnnAssign t a => wfExpr t && wfExpr a
  | .pyIf test b o => wfExpr test && wfStmtList b && wfStmtList o
  | .pyWhile test b o => wfExpr test && wfStmtList b && wfStmtList o
  | .pyFor tg it b o => wfExpr tg && wfExpr it && wfStmtList b && wfStmtList o
  | .pyTry b hs o f => wfStmtList b && wfHandlerList hs && wfStmtList o && wfStmtList f
  | .pyFunctionDef _ _ _ body decs _ => wfStmtList body && wfExprList decs
  | .pyClassDef _ bases body decs _ =>
    wfExprList bases && wfStmtList body && wfExprList decs
  | .pyImport _ => true
  | .pyImportFrom _ _ => true

/-- Well-formedness of a statement list. -/
def wfStmtList : List PyStmt → Bool
  | [] => true
  | s :: t => wfStmt s && wfStmtList t

/-- Well-formedness of a handler list. -/
def wfHandlerList : List PyHandler → Bool
  | [] => true
  | .mk body :: t => wfStmtList body && wfHandlerList t

end

/-- Well-formedness of a parsed module. -/
def wfModule (tree : PyModule) : Bool :=
  wfStmtList tree.body

mutual

/-- Line numbers of the definition nodes walked by the element extraction,
in extraction order. -/
def stmtDefLinenos : PyStmt → List Nat
  | .pyFunctionDef _ _ _ body _ ln => ln :: stmtListDefLinenos body
  | .pyClassDef _ _ body _ ln => ln :: stmtListDefLinenos body
  | .pyIf _ b o => stmtListDefLinenos b ++ stmtListDefLinenos o
  | .pyWhile _ b o => stmtListDefLinenos b ++ stmtListDefLinenos o
  | .pyFor _ _ b o => stmtListDefLinenos b ++ stmtListDefLinenos o
  | .pyTry b hs o f =>
    stmtListDefLinenos b ++ handlerListDefLinenos hs ++
    stmtListDefLinenos o ++ stmtListDefLinenos f
  | _ => []

/-- Definition line numbers of a statement list. -/
def stmtListDefLinenos : List PyStmt → List Nat
  | [] => []
  | s :: t => stmtDefLinenos s ++ stmtListDefLinenos t

/-- Definition line numbers of a handler list. -/
def handlerListDefLinenos : List PyHandler → List Nat
  | [] => []
  | .mk body :: t => stmtListDefLinenos body ++ handlerListDefLinenos t

end

/-- Definition line numbers of a module. -/
def module_def_linenos (tree : PyModule) : List Nat :=
  stmtListDefLinenos tree.body

/-- A possibly-pending entry for a single path. -/
def optPend (p : String) : Option Nat → List (String × Nat)
  | none => []
  | some t => [(p, t)]

/-- Last element of a time list, with a default for the empty list. -/
def lastD (x : Option Nat) : List Nat → Option Nat
  | [] => x
  | t :: ts => lastD (some t) ts

/-- The watcher state tracking a single path: one last-event entry and an
optional pending entry. -/
def oneWatcher (p : String) (t1 : Nat) (pend : List (String × Nat)) (d : Nat) :
    WatcherState :=
  { pending_files := pend, last_event_time := [(p, t1)], debounce_seconds := d }

-- ## Theorems settling the stated properties

/-- C9: analysis of a file whose entire content is def add(a, b): return
a + b yields exactly one CodeElement, of kind function, with complexity
score one and an empty dependency set (and no decorators, the rendered
signature, line one). -/
theorem single_add_function_analysis (md5 : String → String) (now path content : String) :
    (analyze_file md5 now addModule path content).elements =
      [{ name := "add", type := "function", file_path := path, line_number := 1,
         docstring := none, complexity_score := 1, dependencies := [],
         decorators := [], signature := some "add(a, b)", metadata := none }] := by
  rfl

/-- C6 counterexample: a metadata file whose text does not parse makes
_load_metadata propagate the parse error instead of yielding the empty
map. -/
theorem load_metadata_claim_counterexample :
    load_metadata (fun _ => none) (some "not json") = Except.error "JSONDecodeError" ∧
    load_metadata (fun _ => none) (some "not json") ≠ Except.ok [] := by
  constructor
  · rfl
  · intro h
    rw [show load_metadata (fun _ => none) (some "not json")
          = Except.error "JSONDecodeError" from rfl] at h
    exact Except.noConfusion h

/-- C6 amended: a missing metadata file yields the empty map, but a corrupt
metadata file raises the parse error, because _load_metadata does not guard
the json.load call. -/
theorem load_metadata_missing_vs_corrupt
    (parse : String → Option (List (String × MetadataRecord))) (s : String)
    (hbad : parse s = none) :
    load_metadata parse none = Except.ok [] ∧
    load_metadata parse (some s) = Except.error "JSONDecodeError" := by
  refine ⟨rfl, ?_⟩
  simp [load_metadata, hbad]

/-- C6 witness: the amended statement at a concrete failing parse. -/
theorem load_metadata_missing_vs_corrupt_witness :
    load_metadata (fun _ => none) none = Except.ok [] ∧
    load_metadata (fun _ => none) (some "x") = Except.error "JSONDecodeError" :=
  load_metadata_missing_vs_corrupt (fun _ => none) "x" rfl

/-- C7: a deletion event for a tracked Python file leaves the metadata map
and both index collections untouched, and the handler logs an error: the
remove_file method it calls does not exist on DocumentationSystem, so the
call raises AttributeError inside the try block. -/
theorem on_deleted_removes_nothing (doc : DocSystemState) (file_path : String)
    (hpy : strEndsWith file_path ".py" = true)
    (hign : doc_ignored_patterns.any (fun pat => strContains file_path pat) = false) :
    (on_deleted doc false file_path).1 = doc ∧ (on_deleted doc false file_path).2 = true := by
  simp [on_deleted, hpy, hign, remove_file_lookup]

/-- C7 witness: the deletion handler at a concrete tracked file and a
non-empty documentation state. -/
theorem on_deleted_removes_nothing_witness :
    (on_deleted sample_doc_state false "a.py").1 = sample_doc_state ∧
    (on_deleted sample_doc_state false "a.py").2 = true :=
  on_deleted_removes_nothing sample_doc_state "a.py" (by decide) (by decide)

/-- C10: when any component of the path starts, case-insensitively, with any
configured ignore pattern, should_process_file returns false and
process_file leaves the state untouched and analyzes and indexes nothing. -/
theorem ignore_prefix_blocks_processing
    (md5 : String → String) (now : String) (llmA : Bool) (llmR : Option String)
    (jsA : Bool) (parsed : Option PyModule) (st : DocSystemState)
    (file_path content : String)
    (h : ∃ part ∈ pathParts file_path, ∃ pat ∈ get_comprehensive_ignore_patterns,
         strStartsWith (strToLower part) (strToLower pat) = true) :
    should_process_file md5 st.metadata file_path content = false ∧
    process_file md5 now llmA llmR jsA parsed st file_path content = (st, none) := by
  obtain ⟨part, hmem, pat, hpmem, hsw⟩ := h
  have hip : should_ignore_path part get_comprehensive_ignore_patterns = true := by
    unfold should_ignore_path
    rw [List.any_eq_true]
    exact ⟨pat, hpmem, by simp [hsw]⟩
  have hany : (pathParts file_path).any
      (fun p => should_ignore_path p get_comprehensive_ignore_patterns) = true :=
    List.any_eq_true.mpr ⟨part, hmem, hip⟩
  have hspf : should_process_file md5 st.metadata file_path content = false := by
    unfold should_process_file
    split
    · rfl
    · simp [hany]
  refine ⟨hspf, ?_⟩
  unfold process_file
  simp [hspf]

/-- C10 witness: a path whose first component distribution merely starts
with the configured pattern dist. -/
theorem ignore_prefix_blocks_processing_witness :
    should_process_file (fun s => s) sample_doc_state.metadata
      "distribution/app.py" "x" = false ∧
    process_file (fun s => s) "T" false none true (some ⟨[]⟩) sample_doc_state
      "distribution/app.py" "x" = (sample_doc_state, none) :=
  ignore_prefix_blocks_processing (fun s => s) "T" false none true (some ⟨[]⟩)
    sample_doc_state "distribution/app.py" "x"
    ⟨"distribution", by decide, "dist", by decide, by decide⟩

/-- LLM enhancement never touches the content hash: both the insight path
and the heuristic fallback only rewrite purpose, breaking-change and
architecture fields. -/
theorem analyze_with_llm_content_hash (a : Bool) (r : Option String) (fa : FileAnalysis) :
    (analyze_with_llm a r fa).content_hash = fa.content_hash := by
  unfold analyze_with_llm fallback_analysis
  cases a <;> cases r
  all_goals dsimp only
  all_goals try rfl
  case true.some =>
    rename_i r
    by_cases hp : ((parse_llm_response r).purpose != "") = true
    · simp only [hp, if_true]
    · simp [hp]

/-- Lookup after an in-place replacement that hits an existing key. -/
theorem lookup_map_replace {β : Type} (k : String) (v : β) :
    ∀ (m : List (String × β)), (∃ p ∈ m, p.1 = k) →
      (m.map (fun p => if p.1 == k then (k, v) else p)).lookup k = some v := by
  intro m
  induction m with
  | nil =>
    rintro ⟨p, hp, _⟩
    simp at hp
  | cons q t ih =>
    rintro ⟨p, hp, hpk⟩
    obtain ⟨qk, qv⟩ := q
    rw [List.map_cons]
    dsimp only
    by_cases hq : qk = k
    · rw [if_pos (beq_iff_eq.mpr hq)]
      simp [List.lookup]
    · rw [if_neg (by simp [beq_iff_eq, hq])]
      have hkq : (k == qk) = false := beq_eq_false_iff_ne.mpr (Ne.symm hq)
      rcases List.mem_cons.mp hp with rfl | hpt
      · exact absurd hpk hq
      · simp only [List.lookup, hkq]
        exact ih ⟨p, hpt, hpk⟩

/-- Lookup after appending a fresh key. -/
theorem lookup_append_singleton {β : Type} (k : String) (v : β) :
    ∀ (m : List (String × β)), (∀ p ∈ m, p.1 ≠ k) →
      ((m ++ [(k, v)]).lookup k = some v) := by
  intro m
  induction m with
  | nil => simp [List.lookup]
  | cons q t ih =>
    intro h
    have hq : q.1 ≠ k := h q (List.mem_cons_self q t)
    have hkq : (k == q.1) = false := beq_eq_false_iff_ne.mpr (Ne.symm hq)
    simpa [List.lookup, hkq] using ih (fun p hp => h p (List.mem_cons_of_mem q hp))

/-- Lookup after a dict assignment always finds the assigned value. -/
theorem lookup_setKey {β : Type} (m : List (String × β)) (k : String) (v : β) :
    (setKey m k v).lookup k = some v := by
  unfold setKey
  split
  · rename_i h
    obtain ⟨p, hp, hpk⟩ := List.any_eq_true.mp h
    exact lookup_map_replace k v m ⟨p, hp, beq_iff_eq.mp hpk⟩
  · rename_i h
    refine lookup_append_singleton k v m (fun p hp hpk => ?_)
    exact h (List.any_eq_true.mpr ⟨p, hp, beq_iff_eq.mpr hpk⟩)

/-- C1: after one successful process_file, should_process_file is false for
the same path while the bytes are unchanged, and true again for content
whose hash differs. The code compares MD5 hex digests, so a one-byte change
re-triggers processing exactly when its digest differs from the stored one;
that collision-freeness of MD5 at the changed input is the final
hypothesis. The normalisation hypothesis reflects that the metadata map is
written under the raw path and read under its str form, which coincide for
the normalised paths produced by scanning and watching. -/
theorem change_detection_after_process_file
    (md5 : String → String) (now : String) (llmA : Bool) (llmR : Option String)
    (jsA : Bool) (parsed : Option PyModule) (st : DocSystemState)
    (file_path content c2 : String)
    (hnorm : pathStr file_path = file_path)
    (hsucc : (process_file md5 now llmA llmR jsA parsed st file_path content).2.isSome = true)
    (hdiff : md5 c2 ≠ md5 content) :
    should_process_file md5
      (process_file md5 now llmA llmR jsA parsed st file_path content).1.metadata
      file_path content = false ∧
    should_process_file md5
      (process_file md5 now llmA llmR jsA parsed st file_path content).1.metadata
      file_path c2 = true := by
  have hsp : should_process_file md5 st.metadata file_path content = true := by
    by_contra hno
    rw [Bool.not_eq_true] at hno
    unfold process_file at hsucc
    simp [hno] at hsucc
  have hsp2 := hsp
  unfold should_process_file at hsp2
  simp at hsp2
  have hext : supported_extensions.contains (pathSuffix file_path) = true := by
    simpa using hsp2.1
  have hign : (pathParts file_path).any
      (fun part => should_ignore_path part get_comprehensive_ignore_patterns) = false := by
    rw [List.any_eq_false]
    intro part hpart
    simp [hsp2.2.1 part hpart]
  have hmeta : ∃ r : MetadataRecord,
      (process_file md5 now llmA llmR jsA parsed st file_path content).1.metadata
        = setKey st.metadata file_path r ∧ r.content_hash = md5 content := by
    unfold process_file
    simp only [hsp, Bool.not_true, Bool.false_eq_true, if_false]
    cases hpy : pathSuffix file_path == ".py" with
    | true =>
      cases parsed with
      | none =>
        exfalso
        unfold process_file at hsucc
        simp [hsp, hpy] at hsucc
      | some tree =>
        simp only [hpy, if_true]
        refine ⟨_, rfl, ?_⟩
        dsimp only
        rw [analyze_with_llm_content_hash]
        rfl
    | false =>
      cases hjs : [".js", ".jsx", ".ts", ".tsx"].contains (pathSuffix file_path) && jsA with
      | true =>
        simp only [hpy, hjs, Bool.false_eq_true, if_false, if_true]
        refine ⟨_, rfl, ?_⟩
        dsimp only
        rw [analyze_with_llm_content_hash]
        rfl
      | false =>
        exfalso
        unfold process_file at hsucc
        simp at hjs
        have hjs3 : ¬((pathSuffix file_path = ".js" ∨ pathSuffix file_path = ".jsx" ∨
            pathSuffix file_path = ".ts" ∨ pathSuffix file_path = ".tsx") ∧ jsA = true) := by
          rintro ⟨hd, hj⟩
          rw [hjs hd] at hj
          exact Bool.false_ne_true hj
        simp [hsp, hpy, hjs3] at hsucc
  obtain ⟨r, hr1, hr2⟩ := hmeta
  constructor
  · rw [hr1]
    unfold should_process_file
    rw [hext]
    simp only [hign, Bool.not_true, if_false, Bool.false_eq_true]
    rw [hnorm, lookup_setKey]
    simp [hr2]
  · rw [hr1]
    unfold should_process_file
    rw [hext]
    simp only [hign, Bool.not_true, if_false, Bool.false_eq_true]
    rw [hnorm, lookup_setKey]
    simp [hr2]
    exact fun h => hdiff h.symm

/-- C1 witness: a concrete first processing of mymodule.py with content x,
then an unchanged read and a changed read. -/
theorem change_detection_after_process_file_witness :
    should_process_file (fun s => s)
      (process_file (fun s => s) "T" false none true (some ⟨[]⟩)
        sample_doc_state "mymodule.py" "x").1.metadata "mymodule.py" "x" = false ∧
    should_process_file (fun s => s)
      (process_file (fun s => s) "T" false none true (some ⟨[]⟩)
        sample_doc_state "mymodule.py" "x").1.metadata "mymodule.py" "y" = true :=
  change_detection_after_process_file (fun s => s) "T" false none true (some ⟨[]⟩)
    sample_doc_state "mymodule.py" "x" "y" (by decide) (by decide) (by decide)

/-- Replacing the documents at a matching id keeps the id list unchanged. -/
theorem map_replace_ids {α : Type} (getId : α → String) (d : α) (docs : List α) :
    (docs.map (fun x => if getId x == getId d then d else x)).map getId =
      docs.map getId := by
  induction docs with
  | nil => rfl
  | cons a t ih =>
    simp only [List.map_cons]
    by_cases ha : (getId a == getId d) = true
    · rw [if_pos ha, ih, beq_iff_eq.mp ha]
    · rw [if_neg ha, ih]

/-- The id list after an upsert: unchanged on a hit, extended on a miss. -/
theorem upsertBy_ids {α : Type} (getId : α → String) (docs : List α) (d : α) :
    (upsertBy getId docs d).map getId =
      if docs.any (fun x => getId x == getId d) then docs.map getId
      else docs.map getId ++ [getId d] := by
  unfold upsertBy
  split
  · exact map_replace_ids getId d docs
  · simp

/-- An upsert preserves uniqueness of ids. -/
theorem upsertBy_ids_nodup {α : Type} (getId : α → String) (docs : List α) (d : α)
    (h : (docs.map getId).Nodup) : ((upsertBy getId docs d).map getId).Nodup := by
  rw [upsertBy_ids]
  split
  · exact h
  · rename_i hany
    rw [List.nodup_append]
    refine ⟨h, List.nodup_singleton _, ?_⟩
    intro i hi hid
    rw [List.mem_singleton] at hid
    obtain ⟨x, hx, hxi⟩ := List.mem_map.mp hi
    rw [List.any_eq_true] at hany
    push_neg at hany
    exact absurd (beq_iff_eq.mpr (hxi.trans hid)) (by simpa using hany x hx)

/-- After an upsert the upserted id is present. -/
theorem upsertBy_mem_self {α : Type} (getId : α → String) (docs : List α) (d : α) :
    getId d ∈ (upsertBy getId docs d).map getId := by
  rw [upsertBy_ids]
  split
  · rename_i hany
    obtain ⟨x, hx, hxd⟩ := List.any_eq_true.mp hany
    exact (beq_iff_eq.mp hxd) ▸ List.mem_map_of_mem getId hx
  · exact List.mem_append_right _ (List.mem_singleton_self _)

/-- An upsert never removes an id. -/
theorem upsertBy_mem_mono {α : Type} (getId : α → String) (docs : List α) (d : α)
    (i : String) (hi : i ∈ docs.map getId) : i ∈ (upsertBy getId docs d).map getId := by
  rw [upsertBy_ids]
  split
  · exact hi
  · exact List.mem_append_left _ hi

/-- Indexing elements never touches the file collection. -/
theorem foldl_index_element_file (es : List CodeElement) (st : IndexerState) :
    (es.foldl index_element st).file_collection = st.file_collection := by
  induction es generalizing st with
  | nil => rfl
  | cons e t ih => simpa [index_element] using ih _

/-- Indexing a list of elements preserves uniqueness of element ids. -/
theorem foldl_index_element_nodup (es : List CodeElement) (st : IndexerState)
    (h : (st.element_collection.map (·.id)).Nodup) :
    ((es.foldl index_element st).element_collection.map (·.id)).Nodup := by
  induction es generalizing st with
  | nil => exact h
  | cons e t ih =>
    exact ih _ (upsertBy_ids_nodup _ _ _ h)

/-- Indexing a list of elements never removes an element id. -/
theorem foldl_index_element_mono (es : List CodeElement) (st : IndexerState)
    (i : String) (hi : i ∈ st.element_collection.map (·.id)) :
    i ∈ (es.foldl index_element st).element_collection.map (·.id) := by
  induction es generalizing st with
  | nil => exact hi
  | cons e t ih =>
    exact ih _ (upsertBy_mem_mono _ _ _ _ hi)

/-- After indexing a list of elements every element id of the list is present. -/
theorem foldl_index_element_mem (es : List CodeElement) (st : IndexerState)
    (e : CodeElement) (he : e ∈ es) :
    element_id e ∈ (es.foldl index_element st).element_collection.map (·.id) := by
  induction es generalizing st with
  | nil => simp at he
  | cons a t ih =>
    rcases List.mem_cons.mp he with rfl | ht
    · exact foldl_index_element_mono t _ _ (upsertBy_mem_self _ _ _)
    · exact ih _ ht

/-- index_file preserves uniqueness of file document ids. -/
theorem index_file_file_nodup (fa : FileAnalysis) (st : IndexerState)
    (h : (st.file_collection.map (·.id)).Nodup) :
    ((index_file fa st).file_collection.map (·.id)).Nodup := by
  unfold index_file
  rw [foldl_index_element_file]
  exact upsertBy_ids_nodup _ _ _ h

/-- index_file preserves uniqueness of element document ids. -/
theorem index_file_elem_nodup (fa : FileAnalysis) (st : IndexerState)
    (h : (st.element_collection.map (·.id)).Nodup) :
    ((index_file fa st).element_collection.map (·.id)).Nodup := by
  unfold index_file
  exact foldl_index_element_nodup _ _ h

/-- After index_file the file path is present as a file document id. -/
theorem index_file_file_mem (fa : FileAnalysis) (st : IndexerState) :
    fa.file_path ∈ (index_file fa st).file_collection.map (·.id) := by
  unfold index_file
  rw [foldl_index_element_file]
  exact upsertBy_mem_self (·.id) st.file_collection (index_file_doc fa)

/-- After index_file every element id of the analysis is present. -/
theorem index_file_elem_mem (fa : FileAnalysis) (st : IndexerState)
    (e : CodeElement) (he : e ∈ fa.elements) :
    element_id e ∈ (index_file fa st).element_collection.map (·.id) := by
  unfold index_file
  exact foldl_index_element_mem _ _ _ he

/-- C3: indexing is idempotent by document id. index_file writes the
file-level document under the file path (by definition of index_file_doc)
and each element under file_path::name::line_number (by definition of
element_id); after any positive number of repetitions from a state with
unique ids, both collections still hold at most one document per id, and
the expected ids are present. -/
theorem index_file_idempotent_by_id (fa : FileAnalysis) (st : IndexerState) (n : Nat)
    (hn : 1 ≤ n)
    (hf : (st.file_collection.map (·.id)).Nodup)
    (he : (st.element_collection.map (·.id)).Nodup) :
    ((((index_file fa)^[n] st).file_collection.map (·.id)).Nodup ∧
      (((index_file fa)^[n] st).element_collection.map (·.id)).Nodup) ∧
    fa.file_path ∈ ((index_file fa)^[n] st).file_collection.map (·.id) ∧
    ∀ e ∈ fa.elements,
      element_id e ∈ ((index_file fa)^[n] st).element_collection.map (·.id) := by
  obtain ⟨m, rfl⟩ : ∃ m, n = m + 1 := ⟨n - 1, by omega⟩
  clear hn
  induction m generalizing st with
  | zero =>
    refine ⟨⟨index_file_file_nodup fa st hf, index_file_elem_nodup fa st he⟩, ?_, ?_⟩
    · exact index_file_file_mem fa st
    · exact fun e he2 => index_file_elem_mem fa st e he2
  | succ k ih =>
    rw [Function.iterate_succ_apply]
    exact ih (index_file fa st) (index_file_file_nodup fa st hf)
      (index_file_elem_nodup fa st he)

/-- C3 witness: two re-indexes of a concrete analysis from the empty
store. -/
theorem index_file_idempotent_by_id_witness :
    ((((index_file sample_analysis)^[2]
        sample_doc_state.indexer).file_collection.map (·.id)).Nodup ∧
      (((index_file sample_analysis)^[2]
        sample_doc_state.indexer).element_collection.map (·.id)).Nodup) ∧
    sample_analysis.file_path ∈ ((index_file sample_analysis)^[2]
        sample_doc_state.indexer).file_collection.map (·.id) ∧
    ∀ e ∈ sample_analysis.elements,
      element_id e ∈ ((index_file sample_analysis)^[2]
        sample_doc_state.indexer).element_collection.map (·.id) :=
  index_file_idempotent_by_id sample_analysis sample_doc_state.indexer 2
    (by decide) (by decide) (by decide)

mutual

/-- Branch contributions of well-formed expressions are non-negative. -/
theorem exprBranch_nonneg : ∀ e : PyExpr, wfExpr e = true → 0 ≤ exprBranch e
  | .pyName _, _ => by simp [exprBranch]
  | .pyAttr v _, h => by
    simp only [wfExpr] at h
    simpa [exprBranch] using exprBranch_nonneg v h
  | .pyCall f args, h => by
    simp only [wfExpr, Bool.and_eq_true] at h
    have h1 := exprBranch_nonneg f h.1
    have h2 := exprListBranch_nonneg args h.2
    simp only [exprBranch]
    omega
  | .pyBoolOp values, h => by
    simp only [wfExpr, Bool.and_eq_true, decide_eq_true_eq] at h
    have h2 := exprListBranch_nonneg values h.2
    have hlen := h.1
    simp only [exprBranch]
    omega
  | .pyBinOp l r, h => by
    simp only [wfExpr, Bool.and_eq_true] at h
    have h1 := exprBranch_nonneg l h.1
    have h2 := exprBranch_nonneg r h.2
    simp only [exprBranch]
    omega
  | .pyStrConst _, _ => by simp [exprBranch]
  | .pyConst _, _ => by simp [exprBranch]

/-- Branch contributions of well-formed expression lists are non-negative. -/
theorem exprListBranch_nonneg : ∀ l : List PyExpr, wfExprList l = true → 0 ≤ exprListBranch l
  | [], _ => by simp [exprListBranch]
  | e :: t, h => by
    simp only [wfExprList, Bool.and_eq_true] at h
    have h1 := exprBranch_nonneg e h.1
    have h2 := exprListBranch_nonneg t h.2
    simp only [exprListBranch]
    omega

/-- Branch contributions of well-formed statements are non-negative. -/
theorem stmtBranch_nonneg : ∀ s : PyStmt, wfStmt s = true → 0 ≤ stmtBranch s
  | .pyExprStmt e, h => by
    simp only [wfStmt] at h
    simpa [stmtBranch] using exprBranch_nonneg e h
  | .pyReturn none, _ => by simp [stmtBranch]
  | .pyReturn (some e), h => by
    simp only [wfStmt] at h
    simpa [stmtBranch] using exprBranch_nonneg e h
  | .pyAssign ts v, h => by
    simp only [wfStmt, Bool.and_eq_true] at h
    have h1 := exprListBranch_nonneg ts h.1
    have h2 := exprBranch_nonneg v h.2
    simp only [stmtBranch]
    omega
  | .pyAnnAssign t a, h => by
    simp only [wfStmt, Bool.and_eq_true] at h
    have h1 := exprBranch_nonneg t h.1
    have h2 := exprBranch_nonneg a h.2
    simp only [stmtBranch]
    omega
  | .pyIf test b o, h => by
    simp only [wfStmt, Bool.and_eq_true] at h
    have h1 := exprBranch_nonneg test h.1.1
    have h2 := stmtListBranch_nonneg b h.1.2
    have h3 := stmtListBranch_nonneg o h.2
    simp only [stmtBranch]
    omega
  | .pyWhile test b o, h => by
    simp only [wfStmt, Bool.and_eq_true] at h
    have h1 := exprBranch_nonneg test h.1.1
    have h2 := stmtListBranch_nonneg b h.1.2
    have h3 := stmtListBranch_nonneg o h.2
    simp only [stmtBranch]
    omega
  | .pyFor tg it b o, h => by
    simp only [wfStmt, Bool.and_eq_true] at h
    have h1 := exprBranch_nonneg tg h.1.1.1
    have h2 := exprBranch_nonneg it h.1.1.2
    have h3 := stmtListBranch_nonneg b h.1.2
    have h4 := stmtListBranch_nonneg o h.2
    simp only [stmtBranch]
    omega
  | .pyTry b hs o f, h => by
    simp only [wfStmt, Bool.and_eq_true] at h
    have h1 := stmtListBranch_nonneg b h.1.1.1
    have h2 := handlerListBranch_nonneg hs h.1.1.2
    have h3 := stmtListBranch_nonneg o h.1.2
    have h4 := stmtListBranch_nonneg f h.2
    simp only [stmtBranch]
    omega
  | .pyFunctionDef _ _ _ body decs _, h => by
    simp only [wfStmt, Bool.and_eq_true] at h
    have h1 := stmtListBranch_nonneg body h.1
    have h2 := exprListBranch_nonneg decs h.2
    simp only [stmtBranch]
    omega
  | .pyClassDef _ bases body decs _, h => by
    simp only [wfStmt, Bool.and_eq_true] at h
    have h1 := exprListBranch_nonneg bases h.1.1
    have h2 := stmtListBranch_nonneg body h.1.2
    have h3 := exprListBranch_nonneg decs h.2
    simp only [stmtBranch]
    omega
  | .pyImport _, _ => by simp [stmtBranch]
  | .pyImportFrom _ _, _ => by simp [stmtBranch]

/-- Branch contributions of well-formed statement lists are non-negative. -/
theorem stmtListBranch_nonneg : ∀ l : List PyStmt, wfStmtList l = true → 0 ≤ stmtListBranch l
  | [], _ => by simp [stmtListBranch]
  | s :: t, h => by
    simp only [wfStmtList, Bool.and_eq_true] at h
    have h1 := stmtBranch_nonneg s h.1
    have h2 := stmtListBranch_nonneg t h.2
    simp only [stmtListBranch]
    omega

/-- Branch contributions of well-formed handler lists are non-negative. -/
theorem handlerListBranch_nonneg :
    ∀ l : List PyHandler, wfHandlerList l = true → 0 ≤ handlerListBranch l
  | [], _ => by simp [handlerListBranch]
  | .mk body :: t, h => by
    simp only [wfHandlerList, Bool.and_eq_true] at h
    have h1 := stmtListBranch_nonneg body h.1
    have h2 := handlerListBranch_nonneg t h.2
    simp only [handlerListBranch, handlerBranch]
    omega

end

mutual

/-- Every element found under a well-formed statement has complexity at least one. -/
theorem stmtElements_complexity (fp : String) : ∀ s : PyStmt, wfStmt s = true →
    ∀ e ∈ stmtElements fp s, 1 ≤ e.complexity_score
  | .pyFunctionDef a n args body decs ln, h, e, he => by
    simp only [stmtElements] at he
    simp only [wfStmt, Bool.and_eq_true] at h
    rcases List.mem_cons.mp he with rfl | ht
    · have h1 := stmtListBranch_nonneg body h.1
      have h2 := exprListBranch_nonneg decs h.2
      simp only [analyze_function, calculate_complexity, stmtBranch]
      omega
    · exact stmtListElements_complexity fp body h.1 e ht
  | .pyClassDef n bases body decs ln, h, e, he => by
    simp only [stmtElements] at he
    simp only [wfStmt, Bool.and_eq_true] at h
    rcases List.mem_cons.mp he with rfl | ht
    · have h1 := exprListBranch_nonneg bases h.1.1
      have h2 := stmtListBranch_nonneg body h.1.2
      have h3 := exprListBranch_nonneg decs h.2
      simp only [analyze_class, calculate_complexity, stmtBranch]
      omega
    · exact stmtListElements_complexity fp body h.1.2 e ht
  | .pyIf test b o, h, e, he => by
    simp only [stmtElements] at he
    simp only [wfStmt, Bool.and_eq_true] at h
    rcases List.mem_append.mp he with hb | ho
    · exact stmtListElements_complexity fp b h.1.2 e hb
    · exact stmtListElements_complexity fp o h.2 e ho
  | .pyWhile test b o, h, e, he => by
    simp only [stmtElements] at he
    simp only [wfStmt, Bool.and_eq_true] at h
    rcases List.mem_append.mp he with hb | ho
    · exact stmtListElements_complexity fp b h.1.2 e hb
    · exact stmtListElements_complexity fp o h.2 e ho
  | .pyFor tg it b o, h, e, he => by
    simp only [stmtElements] at he
    simp only [wfStmt, Bool.and_eq_true] at h
    rcases List.mem_append.mp he with hb | ho
    · exact stmtListElements_complexity fp b h.1.2 e hb
    · exact stmtListElements_complexity fp o h.2 e ho
  | .pyTry b hs o f, h, e, he => by
    simp only [stmtElements] at he
    simp only [wfStmt, Bool.and_eq_true] at h
    rcases List.mem_append.mp he with habo | hf2
    · rcases List.mem_append.mp habo with hab | ho
      · rcases List.mem_append.mp hab with hb | hh
        · exact stmtListElements_complexity fp b h.1.1.1 e hb
        · exact handlerListElements_complexity fp hs h.1.1.2 e hh
      · exact stmtListElements_complexity fp o h.1.2 e ho
    · exact stmtListElements_complexity fp f h.2 e hf2
  | .pyExprStmt _, _, _, he => by simp [stmtElements] at he
  | .pyReturn _, _, _, he => by simp [stmtElements] at he
  | .pyAssign _ _, _, _, he => by simp [stmtElements] at he
  | .pyAnnAssign _ _, _, _, he => by simp [stmtElements] at he
  | .pyImport _, _, _, he => by simp [stmtElements] at he
  | .pyImportFrom _ _, _, _, he => by simp [stmtElements] at he

/-- Every element found under a well-formed statement list has complexity at least one. -/
theorem stmtListElements_complexity (fp : String) : ∀ l : List PyStmt,
    wfStmtList l = true → ∀ e ∈ stmtListElements fp l, 1 ≤ e.complexity_score
  | [], _, _, he => by simp [stmtListElements] at he
  | s :: t, h, e, he => by
    simp only [stmtListElements] at he
    simp only [wfStmtList, Bool.and_eq_true] at h
    rcases List.mem_append.mp he with hs | ht
    · exact stmtElements_complexity fp s h.1 e hs
    · exact stmtListElements_complexity fp t h.2 e ht

/-- Every element found under a well-formed handler list has complexity at least one. -/
theorem handlerListElements_complexity (fp : String) : ∀ l : List PyHandler,
    wfHandlerList l = true → ∀ e ∈ handlerListElements fp l, 1 ≤ e.complexity_score
  | [], _, _, he => by simp [handlerListElements] at he
  | .mk body :: t, h, e, he => by
    simp only [handlerListElements] at he
    simp only [wfHandlerList, Bool.and_eq_true] at h
    rcases List.mem_append.mp he with hb | ht
    · exact stmtListElements_complexity fp body h.1 e hb
    · exact handlerListElements_complexity fp t h.2 e ht

end

/-- The capped token count complexity is always at least one. -/
theorem js_calculate_complexity_ge_one (content : String) (i : Nat) :
    1 ≤ js_calculate_complexity content i := by
  unfold js_calculate_complexity
  dsimp only
  refine le_min ?_ (by norm_num)
  omega

/-- Per line, interface and type elements score zero and all other element kinds score at least one. -/
theorem js_line_elements_complexity (content : String) (lines : List String)
    (fp : String) (i : Nat) (line : String) :
    ∀ e ∈ js_line_elements content lines fp i line,
      ((e.type = "interface" ∨ e.type = "type") → e.complexity_score = 0) ∧
      (e.type ≠ "interface" → e.type ≠ "type" → 1 ≤ e.complexity_score) := by
  intro e he
  unfold js_line_elements at he
  simp only [List.mem_append] at he
  rcases he with (((hf | hc) | hi) | ht) | hcomp
  · obtain ⟨nm, _, rfl⟩ := List.mem_map.mp hf
    refine ⟨?_, fun _ _ => js_calculate_complexity_ge_one content i⟩
    rintro (h | h) <;> simp at h
  · rcases hcc : classPat line.data with _ | nm
    · rw [hcc] at hc
      simp at hc
    · rw [hcc] at hc
      simp only [List.mem_singleton] at hc
      subst hc
      refine ⟨?_, fun _ _ => js_calculate_complexity_ge_one content i⟩
      rintro (h | h) <;> simp at h
  · rcases hcc : interfacePat line.data with _ | nm
    · rw [hcc] at hi
      simp at hi
    · rw [hcc] at hi
      simp only [List.mem_singleton] at hi
      subst hi
      exact ⟨fun _ => rfl, fun h1 _ => absurd rfl h1⟩
  · rcases hcc : typePat line.data with _ | nm
    · rw [hcc] at ht
      simp at ht
    · rw [hcc] at ht
      simp only [List.mem_singleton] at ht
      subst ht
      exact ⟨fun _ => rfl, fun _ h2 => absurd rfl h2⟩
  · obtain ⟨nm, _, rfl⟩ := List.mem_map.mp hcomp
    refine ⟨?_, fun _ _ => js_calculate_complexity_ge_one content i⟩
    rintro (h | h) <;> simp at h

/-- C4 counterexample: a TypeScript interface declaration yields an element
whose complexity score is zero, refuting the claim that every element
scores at least one. -/
theorem complexity_score_claim_counterexample :
    ((convert_js_to_common_analysis (js_analyze_file (fun s => s) "" "types.ts"
      "interface Foo \x7b")).elements.all
      (fun e => decide (1 ≤ e.complexity_score))) = false := by decide

/-- C4 amended: elements of the grammar-based Python analyzer on a
well-formed tree, and function, class and component elements of the
pattern-based JS analyzer, have complexity at least one; interface and
type-alias elements of the JS analyzer are created with complexity zero. -/
theorem complexity_score_by_element_kind :
    (∀ (tree : PyModule) (path : String), wfModule tree = true →
      ∀ e ∈ extract_elements tree path, 1 ≤ e.complexity_score) ∧
    (∀ (content path : String), ∀ e ∈ js_extract_elements content path,
      ((e.type = "interface" ∨ e.type = "type") → e.complexity_score = 0) ∧
      (e.type ≠ "interface" → e.type ≠ "type" → 1 ≤ e.complexity_score)) := by
  constructor
  · intro tree path h e he
    exact stmtListElements_complexity path tree.body h e he
  · intro content path e he
    unfold js_extract_elements at he
    rw [List.mem_flatMap] at he
    obtain ⟨idx, _, he2⟩ := he
    exact js_line_elements_complexity content _ path _ _ e he2

/-- C4 witness: the amended statement at the add function tree and at a
concrete interface element. -/
theorem complexity_score_by_element_kind_witness :
    1 ≤ (analyze_function false "add" ["a", "b"]
      [PyStmt.pyReturn (some (PyExpr.pyBinOp (PyExpr.pyName "a") (PyExpr.pyName "b")))]
      [] 1 "calc.py").complexity_score ∧
    ({ name := "Foo", type := "interface", file_path := "types.ts", line_number := 1,
       docstring := none, complexity_score := 0, dependencies := [], exports := false,
       signature := none, metadata := none : JSCodeElement }).complexity_score = 0 :=
  ⟨complexity_score_by_element_kind.1 addModule "calc.py" (by decide) _ (by decide),
   (complexity_score_by_element_kind.2 "interface Foo \x7b" "types.ts" _ (by decide)).1
     (Or.inl rfl)⟩

mutual

/-- The element line numbers are exactly the definition node line numbers. -/
theorem stmtElements_linenos (fp : String) : ∀ s : PyStmt,
    (stmtElements fp s).map (fun e => e.line_number) = stmtDefLinenos s
  | .pyFunctionDef a n args body decs ln => by
    simp only [stmtElements, stmtDefLinenos, List.map_cons, analyze_function]
    rw [stmtListElements_linenos fp body]
  | .pyClassDef n bases body decs ln => by
    simp only [stmtElements, stmtDefLinenos, List.map_cons, analyze_class]
    rw [stmtListElements_linenos fp body]
  | .pyIf test b o => by
    simp only [stmtElements, stmtDefLinenos, List.map_append]
    rw [stmtListElements_linenos fp b, stmtListElements_linenos fp o]
  | .pyWhile test b o => by
    simp only [stmtElements, stmtDefLinenos, List.map_append]
    rw [stmtListElements_linenos fp b, stmtListElements_linenos fp o]
  | .pyFor tg it b o => by
    simp only [stmtElements, stmtDefLinenos, List.map_append]
    rw [stmtListElements_linenos fp b, stmtListElements_linenos fp o]
  | .pyTry b hs o f => by
    simp only [stmtElements, stmtDefLinenos, List.map_append]
    rw [stmtListElements_linenos fp b, handlerListElements_linenos fp hs,
        stmtListElements_linenos fp o, stmtListElements_linenos fp f]
  | .pyExprStmt _ => by simp [stmtElements, stmtDefLinenos]
  | .pyReturn _ => by simp [stmtElements, stmtDefLinenos]
  | .pyAssign _ _ => by simp [stmtElements, stmtDefLinenos]
  | .pyAnnAssign _ _ => by simp [stmtElements, stmtDefLinenos]
  | .pyImport _ => by simp [stmtElements, stmtDefLinenos]
  | .pyImportFrom _ _ => by simp [stmtElements, stmtDefLinenos]

/-- Statement list version of the line number correspondence. -/
theorem stmtListElements_linenos (fp : String) : ∀ l : List PyStmt,
    (stmtListElements fp l).map (fun e => e.line_number) = stmtListDefLinenos l
  | [] => by simp [stmtListElements, stmtListDefLinenos]
  | s :: t => by
    simp only [stmtListElements, stmtListDefLinenos, List.map_append]
    rw [stmtElements_linenos fp s, stmtListElements_linenos fp t]

/-- Handler list version of the line number correspondence. -/
theorem handlerListElements_linenos (fp : String) : ∀ l : List PyHandler,
    (handlerListElements fp l).map (fun e => e.line_number) = handlerListDefLinenos l
  | [] => by simp [handlerListElements, handlerListDefLinenos]
  | .mk body :: t => by
    simp only [handlerListElements, handlerListDefLinenos, List.map_append]
    rw [stmtListElements_linenos fp body, handlerListElements_linenos fp t]

end

/-- C5 amended, Python side: when the definition nodes of the tree carry
pairwise distinct line numbers, the identity triple is unique across
elements. -/
theorem python_element_identity_unique (tree : PyModule) (fp : String)
    (h : (module_def_linenos tree).Nodup) :
    List.Pairwise (fun a b : CodeElement =>
      (a.file_path, a.name, a.line_number) ≠ (b.file_path, b.name, b.line_number))
      (extract_elements tree fp) := by
  have hmap : (extract_elements tree fp).map (fun e => e.line_number)
      = module_def_linenos tree := stmtListElements_linenos fp tree.body
  rw [← hmap] at h
  have hpw : List.Pairwise (fun a b : CodeElement => a.line_number ≠ b.line_number)
      (extract_elements tree fp) := by
    rw [List.Nodup, List.pairwise_map] at h
    exact h
  refine hpw.imp ?_
  intro a b hne heq
  exact hne (congrArg (fun p => p.2.2) heq)

/-- C5 counterexample: one source line defining an exported capitalised
function makes the JS analyzer emit two elements, a function and a
component, with the same file path, name and line number, so the identity
triple is not unique in that analysis. -/
theorem element_identity_claim_counterexample :
    ¬ List.Pairwise (fun a b : CodeElement =>
        (a.file_path, a.name, a.line_number) ≠ (b.file_path, b.name, b.line_number))
      (convert_js_to_common_analysis (js_analyze_file (fun s => s) "" "comp.tsx"
        "export function Foo() \x7b")).elements := by decide

/-- C5 witness: the amended statement at the add function tree. -/
theorem python_element_identity_unique_witness :
    List.Pairwise (fun a b : CodeElement =>
      (a.file_path, a.name, a.line_number) ≠ (b.file_path, b.name, b.line_number))
      (extract_elements addModule "calc.py") :=
  python_element_identity_unique addModule "calc.py" (by decide)

theorem countSubFuel_congr : ∀ (k f1 f2 : Nat) (needle hay : List Char),
    hay.length ≤ k → hay.length < f1 → hay.length < f2 →
    countSubFuel f1 needle hay = countSubFuel f2 needle hay := by
  intro k
  induction k with
  | zero =>
    intro f1 f2 needle hay h1 h2 h3
    obtain ⟨g1, rfl⟩ : ∃ g, f1 = g + 1 := ⟨f1 - 1, by omega⟩
    obtain ⟨g2, rfl⟩ : ∃ g, f2 = g + 1 := ⟨f2 - 1, by omega⟩
    have : hay = [] := List.eq_nil_of_length_eq_zero (by omega)
    subst this
    cases needle <;> rfl
  | succ k ih =>
    intro f1 f2 needle hay h1 h2 h3
    obtain ⟨g1, rfl⟩ : ∃ g, f1 = g + 1 := ⟨f1 - 1, by omega⟩
    obtain ⟨g2, rfl⟩ : ∃ g, f2 = g + 1 := ⟨f2 - 1, by omega⟩
    match needle, hay with
    | [], hay => rfl
    | n :: ns, [] => rfl
    | n :: ns, h0 :: hs =>
      simp only [List.length_cons] at h1 h2 h3
      show (if (n :: ns).isPrefixOf (h0 :: hs) then
          1 + countSubFuel g1 (n :: ns) ((h0 :: hs).drop (n :: ns).length)
        else countSubFuel g1 (n :: ns) hs) =
        (if (n :: ns).isPrefixOf (h0 :: hs) then
          1 + countSubFuel g2 (n :: ns) ((h0 :: hs).drop (n :: ns).length)
        else countSubFuel g2 (n :: ns) hs)
      by_cases hp : (n :: ns).isPrefixOf (h0 :: hs)
      · rw [if_pos hp, if_pos hp]
        have hd : ((h0 :: hs).drop (n :: ns).length).length ≤ hs.length := by
          simp only [List.length_drop, List.length_cons]
          omega
        rw [ih g1 g2 _ _ (by omega) (by omega) (by omega)]
      · rw [if_neg hp, if_neg hp]
        exact ih g1 g2 _ _ (by omega) (by omega) (by omega)

/-- The unfolding equation of countSub on a non-empty text. -/
theorem countSub_cons (n : Char) (ns : List Char) (h0 : Char) (hs : List Char) :
    countSub (n :: ns) (h0 :: hs) =
      if (n :: ns).isPrefixOf (h0 :: hs) then
        1 + countSub (n :: ns) ((h0 :: hs).drop (n :: ns).length)
      else countSub (n :: ns) hs := by
  show (if (n :: ns).isPrefixOf (h0 :: hs) then
      1 + countSubFuel (hs.length + 1) (n :: ns) ((h0 :: hs).drop (n :: ns).length)
    else countSubFuel (hs.length + 1) (n :: ns) hs) = _
  by_cases hp : (n :: ns).isPrefixOf (h0 :: hs)
  · rw [if_pos hp, if_pos hp]
    unfold countSub
    rw [countSubFuel_congr (hs.length + 1) (hs.length + 1)
      (((h0 :: hs).drop (n :: ns).length).length + 1) (n :: ns) _
      (by simp only [List.length_drop, List.length_cons]; omega)
      (by simp only [List.length_drop, List.length_cons]; omega)
      (Nat.lt_succ_self _)]
  · rw [if_neg hp, if_neg hp]
    rfl

/-- A needle longer than the text never occurs in it. -/
theorem countSub_eq_zero_of_short : ∀ (hay : List Char) (n : Char) (ns : List Char),
    hay.length < (n :: ns).length → countSub (n :: ns) hay = 0 := by
  intro hay
  induction hay with
  | nil => intro n ns _; rfl
  | cons h0 hs ih =>
    intro n ns hlen
    rw [countSub_cons]
    have hp : ¬ (n :: ns).isPrefixOf (h0 :: hs) := by
      intro hpre
      have := (List.isPrefixOf_iff_prefix.mp hpre).length_le
      omega
    rw [if_neg hp]
    exact ih n ns (by simp only [List.length_cons] at hlen ⊢; omega)

/-- Appending text to the right never removes an occurrence of a needle:
the left-to-right non-overlapping count is monotone under right append. -/
theorem countSub_append : ∀ (k : Nat) (a : List Char) (n : List Char) (b : List Char),
    a.length ≤ k → countSub n a ≤ countSub n (a ++ b) := by
  intro k
  induction k with
  | zero =>
    intro a n b h1
    have : a = [] := List.eq_nil_of_length_eq_zero (by omega)
    subst this
    simp only [List.nil_append]
    match n with
    | [] =>
      have e1 : countSub ([] : List Char) [] = 1 := rfl
      have e2 : countSub ([] : List Char) b = b.length + 1 := rfl
      rw [e1, e2]
      omega
    | m :: ms => exact Nat.zero_le _
  | succ k ih =>
    intro a n b h1
    match n, a with
    | [], a =>
      show countSub [] a ≤ countSub [] (a ++ b)
      have e1 : countSub [] a = a.length + 1 := rfl
      have e2 : countSub [] (a ++ b) = (a ++ b).length + 1 := rfl
      rw [e1, e2, List.length_append]
      omega
    | m :: ms, [] =>
      simp only [List.nil_append]
      exact Nat.zero_le _
    | m :: ms, h0 :: hs =>
      rw [List.cons_append, countSub_cons, countSub_cons]
      by_cases hp : (m :: ms).isPrefixOf (h0 :: hs)
      · rw [if_pos hp]
        have hp2 : (m :: ms).isPrefixOf (h0 :: (hs ++ b)) := by
          rw [List.isPrefixOf_iff_prefix] at hp ⊢
          exact hp.trans ⟨b, by simp⟩
        rw [if_pos hp2]
        have hle : (m :: ms).length ≤ (h0 :: hs).length :=
          (List.isPrefixOf_iff_prefix.mp hp).length_le
        have hdrop : (h0 :: (hs ++ b)).drop (m :: ms).length =
            ((h0 :: hs).drop (m :: ms).length) ++ b := by
          rw [← List.cons_append]
          exact List.drop_append_of_le_length hle
        rw [hdrop]
        have hlen2 : ((h0 :: hs).drop (m :: ms).length).length ≤ k := by
          simp only [List.length_drop, List.length_cons] at *
          omega
        exact Nat.add_le_add_left (ih _ _ b hlen2) 1
      · rw [if_neg hp]
        by_cases hp2 : (m :: ms).isPrefixOf (h0 :: (hs ++ b))
        · rw [if_pos hp2]
          have hshort : hs.length < (m :: ms).length := by
            by_contra hge
            apply hp
            rw [List.isPrefixOf_iff_prefix] at hp2 ⊢
            have htake := List.prefix_iff_eq_take.mp hp2
            rw [← List.cons_append,
              List.take_append_of_le_length (by simp only [List.length_cons] at *; omega)]
              at htake
            rw [htake]
            exact List.take_prefix _ _
          rw [countSub_eq_zero_of_short hs m ms hshort]
          exact Nat.zero_le _
        · rw [if_neg hp2]
          exact ih hs _ b (by simp only [List.length_cons] at h1; omega)

/-- Branch contributions distribute over statement-list concatenation. -/
theorem stmtListBranch_append : ∀ (xs ys : List PyStmt),
    stmtListBranch (xs ++ ys) = stmtListBranch xs + stmtListBranch ys := by
  intro xs ys
  induction xs with
  | nil => simp [stmtListBranch]
  | cons s t ih =>
    rw [List.cons_append]
    show stmtBranch s + stmtListBranch (t ++ ys) = stmtBranch s + stmtListBranch t + stmtListBranch ys
    rw [ih]
    ring

/-- String append concatenates the character data. -/
theorem strData_append (a b : String) : (a ++ b).data = a.data ++ b.data := rfl

/-- C8: complexity is monotone in branches. Python side: inserting an if
statement anywhere into a function body never decreases the calculated
complexity, provided the inserted pieces are parser-well-formed. JS side:
extending the file content never decreases the token-counting complexity,
whatever start lines are passed. -/
theorem complexity_monotone_in_branches :
    (∀ (isAsync : Bool) (fname : String) (argNames : List String)
      (pre post : List PyStmt) (decs : List PyExpr) (ln : Nat)
      (test : PyExpr) (b o : List PyStmt),
      wfExpr test = true → wfStmtList b = true → wfStmtList o = true →
      calculate_complexity
          (.pyFunctionDef isAsync fname argNames (pre ++ post) decs ln) ≤
        calculate_complexity
          (.pyFunctionDef isAsync fname argNames
            (pre ++ .pyIf test b o :: post) decs ln)) ∧
    (∀ (content extra : String) (i j : Nat),
      js_calculate_complexity content i ≤
        js_calculate_complexity (content ++ extra) j) := by
  constructor
  · intro isAsync fname argNames pre post decs ln test b o htest hb ho
    show 1 + (stmtListBranch (pre ++ post) + exprListBranch decs) ≤
      1 + (stmtListBranch (pre ++ .pyIf test b o :: post) + exprListBranch decs)
    have hsplit : stmtListBranch (pre ++ .pyIf test b o :: post) =
        stmtListBranch pre + (stmtBranch (.pyIf test b o) + stmtListBranch post) := by
      rw [show (.pyIf test b o :: post : List PyStmt) = [.pyIf test b o] ++ post from rfl,
        stmtListBranch_append, stmtListBranch_append]
      have hone : stmtListBranch [PyStmt.pyIf test b o] = stmtBranch (.pyIf test b o) := by
        show stmtBranch (.pyIf test b o) + 0 = stmtBranch (.pyIf test b o)
        ring
      rw [hone]
    rw [hsplit, stmtListBranch_append]
    have h1 := exprBranch_nonneg test htest
    have h2 := stmtListBranch_nonneg b hb
    have h3 := stmtListBranch_nonneg o ho
    have h4 : 0 ≤ stmtBranch (.pyIf test b o) := by
      show 0 ≤ 1 + exprBranch test + stmtListBranch b + stmtListBranch o
      omega
    omega
  · intro content extra i j
    have hmono : ∀ needle : String,
        strCount content needle ≤ strCount (content ++ extra) needle := by
      intro needle
      show countSub needle.data content.data ≤ countSub needle.data (content ++ extra).data
      rw [strData_append]
      exact countSub_append content.data.length content.data needle.data extra.data le_rfl
    have h1 := hmono "if "
    have h2 := hmono "else if"
    have h3 := hmono "switch "
    have h4 := hmono "for "
    have h5 := hmono "while "
    have h6 := hmono "catch "
    have h7 := hmono " ? "
    have h8 := hmono "&&"
    have h9 := hmono "||"
    show min _ 20 ≤ min _ 20
    apply min_le_min _ le_rfl
    omega

/-- C8 witness: the monotonicity at a concrete one-statement body with an
inserted if, and at a concrete content extension. -/
theorem complexity_monotone_in_branches_witness :
    (calculate_complexity
        (.pyFunctionDef false "f" ["x"] ([] ++ [.pyReturn none]) [] 1) ≤
      calculate_complexity
        (.pyFunctionDef false "f" ["x"]
          ([] ++ .pyIf (.pyName "x") [.pyReturn none] [] :: [.pyReturn none]) [] 1)) ∧
    js_calculate_complexity "const x = 1" 1 ≤
      js_calculate_complexity ("const x = 1" ++ "\nif (x) \x7b\x7d") 1 :=
  ⟨complexity_monotone_in_branches.1 false "f" ["x"] [] [.pyReturn none] [] 1
      (.pyName "x") [.pyReturn none] [] (by decide) (by decide) (by decide),
    complexity_monotone_in_branches.2 "const x = 1" "\nif (x) \x7b\x7d" 1 1⟩

theorem lastD_spec : ∀ (ts : List Nat) (x tl : Nat),
    lastD (some x) ts = some tl → tl = x ∨ tl ∈ ts := by
  intro ts
  induction ts with
  | nil =>
    intro x tl h
    left
    exact (Option.some_inj.mp h).symm
  | cons u us ih =>
    intro x tl h
    rcases ih u tl h with h1 | h1
    · right; rw [h1]; exact List.mem_cons_self u us
    · right; exact List.mem_cons_of_mem u h1

theorem watch_step_first (p : String) (d t1 : Nat) (log : List (String × Nat))
    (hpy : strEndsWith p ".py" = true)
    (hign : doc_ignored_patterns.any (fun pat => strContains p pat) = false)
    (ht1 : d ≤ t1) :
    watch_step (initial_watcher d, log) (.modifyEvt false p t1) =
      (oneWatcher p t1 [] d, log ++ [(p, t1)]) := by
  have hlt : ¬ (t1 - 0 < d) := by omega
  have hlt2 : ¬ (t1 < d) := by omega
  simp [watch_step, on_modified, watcher_should_process, initial_watcher,
    hpy, hign, hlt, hlt2, setKey, oneWatcher]

theorem watch_step_suppressed (p : String) (d t1 t : Nat) (x : Option Nat)
    (log : List (String × Nat))
    (hpy : strEndsWith p ".py" = true)
    (hign : doc_ignored_patterns.any (fun pat => strContains p pat) = false)
    (ht : t - t1 < d) :
    watch_step (oneWatcher p t1 (optPend p x) d, log) (.modifyEvt false p t) =
      (oneWatcher p t1 [(p, t)] d, log) := by
  cases x with
  | none =>
    simp [watch_step, on_modified, watcher_should_process, optPend,
      hpy, hign, ht, setKey, List.lookup, oneWatcher]
  | some y =>
    simp [watch_step, on_modified, watcher_should_process, optPend,
      hpy, hign, ht, setKey, List.lookup, oneWatcher]

theorem watch_burst (p : String) (d t1 : Nat)
    (hpy : strEndsWith p ".py" = true)
    (hign : doc_ignored_patterns.any (fun pat => strContains p pat) = false) :
    ∀ (ts : List Nat) (x : Option Nat) (log : List (String × Nat)),
    (∀ t ∈ ts, t - t1 < d) →
    List.foldl watch_step (oneWatcher p t1 (optPend p x) d, log)
      (ts.map (WatchEvent.modifyEvt false p)) =
    (oneWatcher p t1 (optPend p (lastD x ts)) d, log) := by
  intro ts
  induction ts with
  | nil =>
    intro x log _
    rfl
  | cons u us ih =>
    intro x log hts
    rw [List.map_cons, List.foldl_cons,
      watch_step_suppressed p d t1 u x log hpy hign (hts u (List.mem_cons_self u us))]
    exact ih (some u) log (fun t ht => hts t (List.mem_cons_of_mem u ht))

/-- C2 amended: from a fresh watcher with window d, a burst of N modify
events on one Python path — the first at t1 at or past the stale default
window, the later ones all within the window of the first — followed by a
sweep tick at a time T past the window of every later event, dispatches
the path twice when N is at least two: once immediately at the first event
time t1, not after the window, and once at the sweep; with N equal to one
it dispatches exactly once, immediately at t1. -/
theorem debounce_burst_dispatches (p : String) (d t1 T : Nat) (ts : List Nat)
    (hpy : strEndsWith p ".py" = true)
    (hign : doc_ignored_patterns.any (fun pat => strContains p pat) = false)
    (ht1 : d ≤ t1)
    (hts : ∀ t ∈ ts, t - t1 < d)
    (hT : ∀ t ∈ ts, t + d ≤ T) :
    (run_watch ((t1 :: ts).map (WatchEvent.modifyEvt false p) ++ [.tickEvt T])
        (initial_watcher d)).2 =
      (p, t1) :: (if ts.isEmpty then [] else [(p, T)]) := by
  rw [run_watch, List.map_cons, List.cons_append, List.foldl_cons,
    watch_step_first p d t1 [] hpy hign ht1]
  rw [show ([] ++ [(p, t1)] : List (String × Nat)) = [(p, t1)] from rfl]
  rw [List.foldl_append,
    show (oneWatcher p t1 [] d) = oneWatcher p t1 (optPend p none) d from rfl,
    watch_burst p d t1 hpy hign ts none [(p, t1)] hts]
  rw [List.foldl_cons, List.foldl_nil]
  cases ts with
  | nil => rfl
  | cons u us =>
    obtain ⟨tl, htl, hmem⟩ : ∃ tl, lastD (none : Option Nat) (u :: us) = some tl ∧
        tl ∈ u :: us := by
      have : lastD (none : Option Nat) (u :: us) = lastD (some u) us := rfl
      rw [this]
      have hne : ∀ (vs : List Nat) (y : Nat), ∃ tl, lastD (some y) vs = some tl := by
        intro vs
        induction vs with
        | nil => intro y; exact ⟨y, rfl⟩
        | cons v vs ih => intro y; exact ih v
      obtain ⟨tl, htl⟩ := hne us u
      refine ⟨tl, htl, ?_⟩
      rcases lastD_spec us u tl htl with h | h
      · rw [h]; exact List.mem_cons_self u us
      · exact List.mem_cons_of_mem u h
    rw [htl]
    have hready : d ≤ T - tl := by
      have := hT tl hmem
      omega
    simp [watch_step, process_pending, oneWatcher, optPend, hready, List.isEmpty]

/-- C2 counterexample: two modify events on a.py at seconds 1000 and 1001
with a two-second window, then a sweep at 1003, dispatch _process_file
twice — once at 1000, the time of the first event, and once at the sweep —
not exactly once after the window elapses from the last event. -/
theorem debounce_claim_counterexample :
    (run_watch [.modifyEvt false "a.py" 1000, .modifyEvt false "a.py" 1001,
        .tickEvt 1003] (initial_watcher 2)).2 = [("a.py", 1000), ("a.py", 1003)] ∧
    ¬ (run_watch [.modifyEvt false "a.py" 1000, .modifyEvt false "a.py" 1001,
        .tickEvt 1003] (initial_watcher 2)).2.length = 1 := by
  constructor
  · decide
  · decide

/-- C2 witness: the amended dispatch pattern at the concrete burst of two
events with window two. -/
theorem debounce_burst_dispatches_witness :
    (run_watch (((1000 : Nat) :: [1001]).map (WatchEvent.modifyEvt false "a.py") ++
        [.tickEvt 1003]) (initial_watcher 2)).2 =
      ("a.py", 1000) :: (if ([1001] : List Nat).isEmpty then [] else [("a.py", 1003)]) :=
  debounce_burst_dispatches "a.py" 2 1000 1003 [1001] (by decide) (by decide)
    (by decide) (by decide) (by decide)
